import Mathlib

set_option linter.dupNamespace false

/-!
Verification development for the mermaid-rs diagram parsers.

The definitions below are a shallow embedding of the Rust sources:
`src/diagrams/pie/parse.rs`, `src/diagrams/pie/mod.rs`,
`src/diagrams/flowchart/parse.rs` and `src/diagrams/flowchart/mod.rs`.
Inputs are `List Char`; borrowed `&str` fragments become `String`/`List Char`
values; `nom` parsers become functions from input to an explicit result type;
Rust panics (`panic!`, `unreachable!`, `expect`) become an explicit fatal
result or an `Except` error, kept distinct from recoverable `nom` errors.
-/

namespace Mermaid

/-- Character class of `nom::character::complete::multispace0`:
space, tab, carriage return, line feed. -/
def isMultispace (c : Char) : Bool :=
  c = ' ' || c = '\t' || c = '\r' || c = '\n'

/-- Character class of `nom::character::complete::space0`: space and tab. -/
def isSpaceTab (c : Char) : Bool :=
  c = ' ' || c = '\t'

end Mermaid

namespace Pie

open Mermaid

/-- A cursor over the input, as in `nom_locate::LocatedSpan`: `pre` is the
consumed prefix (so line/column/offset are recoverable), `rest` the remaining
input. -/
structure Span where
  pre : List Char
  rest : List Char
deriving DecidableEq, Repr

/-- 0-indexed byte offset of the cursor (`LocatedSpan::location_offset`;
the inputs of interest are ASCII, so bytes and characters coincide). -/
def Span.offset (s : Span) : Nat := s.pre.length

/-- 1-indexed line (`LocatedSpan::location_line`). -/
def Span.line (s : Span) : Nat := 1 + s.pre.count '\n'

/-- 1-indexed column (`LocatedSpan::get_column`). -/
def Span.col (s : Span) : Nat :=
  (s.pre.reverse.takeWhile (fun c => c ≠ '\n')).length + 1

/-- Advance the cursor by `n` characters. -/
def Span.advance (s : Span) (n : Nat) : Span :=
  ⟨s.pre ++ s.rest.take n, s.rest.drop n⟩

/-- `ErrorKind` from `src/diagrams/pie/parse.rs`. The payload of
`ExpectedFloat` mirrors `Option<ParseFloatError>`; the error cause itself is
not modelled (text recognized by `recognize_float` always converts, so the
`some` case is never built by the parser). -/
inductive ErrorKind where
  | ExpectedLiteral (lit : String)
  | ExpectedFloat (inner : Option Unit)
  | UnclosedQuote (lit : String)
  | SearchLiteral (lit : String)
  | UnexpectedTrailing
deriving DecidableEq, Repr

/-- `Error` from `src/diagrams/pie/parse.rs`: position plus kind. -/
structure Error where
  line : Nat
  col : Nat
  offset : Nat
  kind : ErrorKind
deriving DecidableEq, Repr

/-- `Error::new`: build an error at the given span location. -/
def Error.new (s : Span) (k : ErrorKind) : Error :=
  ⟨s.line, s.col, s.offset, k⟩

/-- The result type of a pie sub-parser (`IResult` specialised as in the
source: on success the advanced span and the output, otherwise an `Error`). -/
abbrev PRes (α : Type) := Except Error (Span × α)

/-- Sequencing of pie sub-parsers (the `?`/`let ... = ...?` chaining of the
source): on success continue with the advanced span and the value, otherwise
propagate the error. -/
def pbind {α β : Type} (r : PRes α) (f : Span → α → PRes β) : PRes β :=
  match r with
  | .ok (s, v) => f s v
  | .error e => .error e

/-- A datum of the pie chart (`Datum` in `src/diagrams/pie/mod.rs`).
The source stores `value : f64`, obtained as `lit.parse::<f64>()` from the
recognized literal `lit` (which always succeeds on such text); the model
keeps the recognized literal itself, of which the stored float is the
denotation. -/
structure Datum where
  label : String
  value : String
deriving DecidableEq, Repr

/-- `Pie` from `src/diagrams/pie/mod.rs`. -/
structure Pie where
  title : Option String
  show_data : Bool
  data : List Datum
deriving DecidableEq, Repr

/-- The `tag` helper of the pie parser (exact literal, `ExpectedLiteral` on
failure). -/
def ptag (lit : String) (s : Span) : PRes (List Char) :=
  if lit.data.isPrefixOf s.rest then
    .ok (s.advance lit.data.length, lit.data)
  else
    .error (Error.new s (.ExpectedLiteral lit))

/-- `ws`: `multispace0` (never fails). -/
def pws (s : Span) : PRes Unit :=
  .ok (s.advance (s.rest.takeWhile isMultispace).length, ())

/-- `take_until("\"")` with the caller-chosen error kind: everything before
the next double quote, failing if there is none. -/
def take_until_quote (k : ErrorKind) (s : Span) : PRes (List Char) :=
  let before := s.rest.takeWhile (fun c => c ≠ '"')
  if before.length = s.rest.length then
    .error (Error.new s k)
  else
    .ok (s.advance before.length, before)

/-- `opt`: recoverable failure becomes `none` without consuming input. -/
def popt {α : Type} (f : Span → PRes α) (s : Span) : PRes (Option α) :=
  match f s with
  | .ok (s', v) => .ok (s', some v)
  | .error _ => .ok (s, none)

/-- `quoted`: a string surrounded by double quotes. -/
def quoted (s : Span) : PRes (List Char) :=
  pbind (ptag "\"" s) fun s _ =>
  pbind (take_until_quote (.UnclosedQuote "\"") s) fun s label =>
  pbind (ptag "\"" s) fun s _ =>
  .ok (s, label)

/-- The mantissa part of `nom::number::complete::recognize_float`:
`digit1 (('.') digit0)?` or `'.' digit1`. Returns the consumed characters and
the remaining input. -/
def mantissa (i : List Char) : Option (List Char × List Char) :=
  let ds := i.takeWhile Char.isDigit
  if ds.isEmpty then
    match i with
    | '.' :: r =>
      let ds2 := r.takeWhile Char.isDigit
      if ds2.isEmpty then none
      else some ('.' :: ds2, r.drop ds2.length)
    | _ => none
  else
    match i.drop ds.length with
    | '.' :: r =>
      let ds2 := r.takeWhile Char.isDigit
      some (ds ++ '.' :: ds2, r.drop ds2.length)
    | r => some (ds, r)

/-- The optional exponent of `recognize_float`: `(e|E) (+|-)? digit1`, where
a dangling `e` is a hard failure (`cut(digit1)` in nom). `none` here means
the whole float recognition fails. -/
def exp_part (i : List Char) : Option (List Char × List Char) :=
  match i with
  | c :: r =>
    if c = 'e' || c = 'E' then
      let (sg, r1) :=
        match r with
        | c2 :: r2 => if c2 = '+' || c2 = '-' then ([c2], r2) else (([] : List Char), c2 :: r2)
        | [] => ([], [])
      let ds := r1.takeWhile Char.isDigit
      if ds.isEmpty then none
      else some (c :: (sg ++ ds), r1.drop ds.length)
    else some ([], c :: r)
  | [] => some ([], [])

/-- `nom::number::complete::recognize_float`: optional sign, mantissa,
optional exponent. Returns the recognized literal and the rest. -/
def recognize_float (i : List Char) : Option (List Char × List Char) :=
  let (sgn, i1) :=
    match i with
    | c :: r => if c = '+' || c = '-' then ([c], r) else (([] : List Char), c :: r)
    | [] => ([], [])
  match mantissa i1 with
  | none => none
  | some (m, i2) =>
    match exp_part i2 with
    | none => none
    | some (e, i3) => some (sgn ++ m ++ e, i3)

/-- `float`: recognize a float literal, keep it (see `Datum.value`);
`ExpectedFloat` if no literal is recognized. -/
def pfloat (s : Span) : PRes String :=
  match recognize_float s.rest with
  | some (lit, _) => .ok (s.advance lit.length, String.mk lit)
  | none => .error (Error.new s (.ExpectedFloat none))

/-- `parse_title`: the literal `title` then everything up to the next quote
(not trimmed here; the header trims). -/
def parse_title (s : Span) : PRes (List Char) :=
  pbind (ptag "title" s) fun s _ =>
  pbind (take_until_quote (.SearchLiteral "\"") s) fun s title =>
  .ok (s, title)

/-- Trim (both ends) by whitespace, as Rust `str::trim` behaves on the ASCII
inputs at hand. -/
def trimChars (l : List Char) : List Char :=
  ((l.dropWhile isMultispace).reverse.dropWhile isMultispace).reverse

/-- `parse_header`: literal `pie`, optional `showData`, optional trimmed
title. -/
def parse_header (s : Span) : PRes (Option String × Bool) :=
  pbind (ptag "pie" s) fun s _ =>
  pbind (pws s) fun s _ =>
  pbind (popt (ptag "showData") s) fun s show_data =>
  pbind (pws s) fun s _ =>
  pbind (popt parse_title s) fun s title =>
  .ok (s, (title.map (fun t => String.mk (trimChars t)), show_data.isSome))

/-- `parse_datum`: quoted label, `:`, float value. -/
def parse_datum (s : Span) : PRes Datum :=
  pbind (quoted s) fun s label =>
  pbind (pws s) fun s _ =>
  pbind (ptag ":" s) fun s _ =>
  pbind (pws s) fun s _ =>
  pbind (pfloat s) fun s value =>
  .ok (s, ⟨String.mk label, value⟩)

/-- The data-point loop of `parse_pie`: skip whitespace, stop at end of
input, otherwise parse one datum and continue. The fuel argument only bounds
the recursion; a successful `parse_datum` always consumes input, so with the
fuel `parse_pie` passes the zero case is never reached. -/
def pie_loop : Nat → Span → List Datum → PRes (List Datum)
  | 0, s, _ => .error (Error.new s (.ExpectedLiteral "no fuel"))
  | fuel + 1, s, data =>
    pbind (pws s) fun s _ =>
    if s.rest.isEmpty then
      .ok (s, data)
    else
      pbind (parse_datum s) fun s d =>
      pie_loop fuel s (data ++ [d])

/-- `parse_pie` from `src/diagrams/pie/parse.rs`: whitespace, header, the
datum loop, then the source's `unreachable!()` guard that trailing input
remains (the loop only exits at end of input). -/
def parse_pie (i : List Char) : PRes Pie :=
  pbind (pws ⟨[], i⟩) fun s _ =>
  pbind (parse_header s) fun s hd =>
  pbind (pie_loop (s.rest.length + 1) s []) fun s data =>
  if (s.rest.dropWhile isMultispace).isEmpty then
    .ok (s, ⟨hd.1, hd.2, data⟩)
  else
    .error (Error.new s (.ExpectedLiteral "unreachable"))

end Pie

namespace Flow

open Mermaid

/-- `Direction` from `src/diagrams/flowchart/mod.rs`. -/
inductive Direction where
  | TopBottom
  | BottomTop
  | LeftRight
  | RightLeft
deriving DecidableEq, Repr

/-- `NodeStyle` from `src/diagrams/flowchart/mod.rs` (the 13 shapes). -/
inductive NodeStyle where
  | Square
  | Round
  | Stadium
  | Subroutine
  | Cylinder
  | Circle
  | Asymmetric
  | Rhombus
  | Hexagon
  | Parallelogram
  | ParallelogramRev
  | Trapezoid
  | TrapezoidRev
  | DoubleCircle
deriving DecidableEq, Repr

/-- `LineStyle` from `src/diagrams/flowchart/mod.rs`. -/
inductive LineStyle where
  | Normal
  | Thick
  | Dotted
deriving DecidableEq, Repr

/-- `ArrowStyle` from `src/diagrams/flowchart/mod.rs`. -/
inductive ArrowStyle where
  | Arrow
  | Circle
  | Cross
deriving DecidableEq, Repr

/-- `Node` from `src/diagrams/flowchart/mod.rs`. -/
structure Node where
  id : String
  label : String
  style : NodeStyle
deriving DecidableEq, Repr

/-- `Node::is_id`: whether the node is just an id mention (only the label is
inspected). -/
def Node.is_id (n : Node) : Bool := n.label.isEmpty

/-- `Connector` from `src/diagrams/flowchart/mod.rs`. `rank` is `u16` in the
source (with an explicit panic above 65535 on the dotted path); the model
uses `Nat`. -/
structure Connector where
  line_style : LineStyle
  arrow_start : Option ArrowStyle
  arrow_end : Option ArrowStyle
  label : String
  rank : Nat
deriving DecidableEq, Repr

/-- `Flowchart` from `src/diagrams/flowchart/mod.rs`. The petgraph
`GraphMap` (directed, weights keyed by the ordered node pair) is modelled as
an association list keyed by the ordered pair, the node `HashMap` as an
association list keyed by the id; neither map's iteration order is
observable in the source. -/
structure Flowchart where
  direction : Direction
  graph : List (String × String × Connector)
  nodes : List (String × Node)
deriving DecidableEq, Repr

/-- `Flowchart::new`. -/
def Flowchart.new (d : Direction) : Flowchart := ⟨d, [], []⟩

/-- Lookup in the node table. -/
def lookupNode (fc : Flowchart) (id : String) : Option Node :=
  (fc.nodes.lookup id)

/-- Lookup of an edge weight by its ordered pair (petgraph
`GraphMap::edge_weight` semantics on our association list). -/
def edgeLookup (g : List (String × String × Connector)) (f t : String) :
    Option Connector :=
  match g with
  | [] => none
  | (a, b, c) :: rest =>
    if a = f && b = t then some c else edgeLookup rest f t

/-- `Flowchart::add_node`. A bare mention (`is_id`) is inserted only when
absent (`entry(..).or_insert(..)`); a labelled mention panics if the id is
already present. `Except.error` is the panic message. -/
def Flowchart.add_node (fc : Flowchart) (n : Node) : Except String Flowchart :=
  if n.is_id then
    match lookupNode fc n.id with
    | some _ => .ok fc
    | none => .ok { fc with nodes := fc.nodes ++ [(n.id, n)] }
  else
    match lookupNode fc n.id with
    | some _ => .error "node with given name already exists"
    | none => .ok { fc with nodes := fc.nodes ++ [(n.id, n)] }

/-- `Flowchart::add_edge`: assert both endpoints are registered, panic on a
duplicate ordered pair, otherwise insert. -/
def Flowchart.add_edge (fc : Flowchart) (f t : String) (conn : Connector) :
    Except String Flowchart :=
  if (lookupNode fc f).isSome && (lookupNode fc t).isSome then
    match edgeLookup fc.graph f t with
    | some _ => .error "edge already exists"
    | none => .ok { fc with graph := fc.graph ++ [(f, t, conn)] }
  else
    .error "assertion failed: nodes exist"

/-- Result of a flowchart sub-parser: success with the remaining input, a
recoverable `nom` error (caught by `alt`/`opt`), or a Rust panic (which
aborts the whole parse; `alt`/`opt` cannot catch it). -/
inductive FRes (α : Type) where
  | ok (rest : List Char) (val : α)
  | err (at_ : List Char) (code : String)
  | fatal (msg : String)
deriving DecidableEq, Repr

/-- Sequencing (`?` in the source). -/
def fbind {α β : Type} (r : FRes α) (f : List Char → α → FRes β) : FRes β :=
  match r with
  | .ok rest v => f rest v
  | .err a c => .err a c
  | .fatal m => .fatal m

/-- `alt` on two alternatives: the second is tried only on a recoverable
error of the first. -/
def orElse {α : Type} (p q : List Char → FRes α) (i : List Char) : FRes α :=
  match p i with
  | .err _ _ => q i
  | r => r

/-- `combinator::value`: replace the output.  -/
def pvalue {α β : Type} (v : α) (p : List Char → FRes β) (i : List Char) :
    FRes α :=
  match p i with
  | .ok rest _ => .ok rest v
  | .err a c => .err a c
  | .fatal m => .fatal m

/-- `combinator::opt`. -/
def fopt {α : Type} (p : List Char → FRes α) (i : List Char) :
    FRes (Option α) :=
  match p i with
  | .ok rest v => .ok rest (some v)
  | .err _ _ => .ok i none
  | .fatal m => .fatal m

/-- `bytes::complete::tag`. -/
def ftag (lit : String) (i : List Char) : FRes (List Char) :=
  if lit.data.isPrefixOf i then .ok (i.drop lit.data.length) lit.data
  else .err i "Tag"

/-- `ws`: `space0`. -/
def fws (i : List Char) : FRes Unit :=
  .ok (i.dropWhile isSpaceTab) ()

/-- `ident`: `alphanumeric1`. -/
def ident (i : List Char) : FRes String :=
  let run := i.takeWhile Char.isAlphanum
  if run.isEmpty then .err i "AlphaNumeric"
  else .ok (i.drop run.length) (String.mk run)

/-- `flowchart_tok`. -/
def flowchart_tok (i : List Char) : FRes (List Char) := ftag "flowchart" i

/-- `direction`: `TB`/`TD`, `BT`, `RL`, `LR`, in source order. -/
def direction (i : List Char) : FRes Direction :=
  orElse (pvalue Direction.TopBottom (orElse (ftag "TB") (ftag "TD")))
    (orElse (pvalue Direction.BottomTop (ftag "BT"))
      (orElse (pvalue Direction.RightLeft (ftag "RL"))
        (pvalue Direction.LeftRight (ftag "LR")))) i

/-- `node_style_start`: the priority-ordered shape-start delimiters, in
source order. -/
def node_style_start (i : List Char) : FRes String :=
  orElse (pvalue "(((" (ftag "((("))
    (orElse (pvalue "([" (ftag "(["))
      (orElse (pvalue "[[" (ftag "[["))
        (orElse (pvalue "[(" (ftag "[("))
          (orElse (pvalue "((" (ftag "(("))
            (orElse (pvalue "\x7b\x7b" (ftag "\x7b\x7b"))
              (orElse (pvalue "[/" (ftag "[/"))
                (orElse (pvalue "[\\" (ftag "[\\"))
                  (orElse (pvalue "[" (ftag "["))
                    (orElse (pvalue "(" (ftag "("))
                      (orElse (pvalue ">" (ftag ">"))
                        (pvalue "\x7b" (ftag "\x7b")))))))))))) i

/-- `match_end_tester`: try each end delimiter in order; consume the first
that matches. -/
def match_end_tester (tests : List (String × NodeStyle)) (i : List Char) :
    FRes NodeStyle :=
  match tests with
  | [] => .err i "Tag"
  | (t, style) :: rest =>
    if t.data.isPrefixOf i then .ok (i.drop t.data.length) style
    else match_end_tester rest i

/-- `node_style_end`: map a shape-start delimiter to its candidate end
delimiters/styles (source `match`); an unreachable start is the source's
`unreachable!()`. -/
def node_style_end (start : String) (i : List Char) : FRes NodeStyle :=
  if start = "[" then match_end_tester [("]", .Square)] i
  else if start = "(" then match_end_tester [(")", .Round)] i
  else if start = "([" then match_end_tester [("])", .Stadium)] i
  else if start = "[[" then match_end_tester [("]]", .Subroutine)] i
  else if start = "[(" then match_end_tester [(")]", .Cylinder)] i
  else if start = "((" then match_end_tester [("))", .Circle)] i
  else if start = ">" then match_end_tester [("]", .Asymmetric)] i
  else if start = "\x7b" then match_end_tester [("\x7d", .Rhombus)] i
  else if start = "\x7b\x7b" then match_end_tester [("\x7d\x7d", .Hexagon)] i
  else if start = "[/" then
    match_end_tester [("/]", .Parallelogram), ("\\]", .Trapezoid)] i
  else if start = "[\\" then
    match_end_tester [("\\]", .ParallelogramRev), ("/]", .TrapezoidRev)] i
  else if start = "(((" then match_end_tester [(")))", .DoubleCircle)] i
  else .fatal "unreachable"

/-- `node_label_quoted`: an opening quote, then `splitn(2, '"')`; a missing
closing quote is the source's `.expect("TODO error handling")` panic. -/
def node_label_quoted (i : List Char) : FRes (List Char) :=
  fbind (ftag "\"" i) fun i _ =>
  let inner := i.takeWhile (fun c => c ≠ '"')
  if inner.length = i.length then .fatal "TODO error handling"
  else .ok (i.drop (inner.length + 1)) inner

/-- `input_until`: try the end matcher at offset 0, 1, ... below the input
length; return the skipped prefix with the match, or a recoverable error at
the original input if no offset matches. -/
def input_until_aux {α : Type} (p : List Char → FRes α) (orig taken : List Char) :
    (cur : List Char) → FRes (List Char × α)
  | [] => .err orig "TakeUntil"
  | c :: rest =>
    match p (c :: rest) with
    | .ok r v => .ok r (taken, v)
    | .fatal m => .fatal m
    | .err _ _ => input_until_aux p orig (taken ++ [c]) rest

/-- `node_label_unquoted`: scan for the first matching end delimiter,
everything before it is the label. -/
def node_label_unquoted (start : String) (i : List Char) :
    FRes (List Char × NodeStyle) :=
  input_until_aux (node_style_end start) i [] i

/-- `node`: identifier, optional shape start, then a quoted or unquoted
label closed by the shape end. -/
def node (i : List Char) : FRes Node :=
  fbind (ident i) fun i id =>
  fbind (fws i) fun i _ =>
  fbind (fopt node_style_start i) fun i ss =>
  match ss with
  | none => .ok i ⟨id, "", .Square⟩
  | some start =>
    fbind (fws i) fun i _ =>
    if i.head? = some '"' then
      fbind (node_label_quoted i) fun i label =>
      fbind (fws i) fun i _ =>
      fbind (node_style_end start i) fun i style =>
      .ok i ⟨id, String.mk label, style⟩
    else
      fbind (node_label_unquoted start i) fun i ls =>
      .ok i ⟨id, String.mk ls.1, ls.2⟩

/-- The `&`-loop of `node_list`. Fuel bounds the recursion; each iteration
consumes at least the `&` so the fuel `node_list` passes is never
exhausted. -/
def node_list_loop : Nat → List Char → List Node → FRes (List Node)
  | 0, _, _ => .fatal "no fuel"
  | fuel + 1, i, acc =>
    if i.head? = some '&' then
      fbind (ftag "&" i) fun i _ =>
      fbind (fws i) fun i _ =>
      fbind (node i) fun i n =>
      fbind (fws i) fun i _ =>
      node_list_loop fuel i (acc ++ [n])
    else .ok i acc

/-- `node_list`: one or more nodes separated by `&`. -/
def node_list (i : List Char) : FRes (List Node) :=
  fbind (node i) fun i first =>
  fbind (fws i) fun i _ =>
  node_list_loop (i.length + 1) i [first]

/-- `arrow`: `o`, `x`, or the direction-sensitive `<`/`>`. -/
def arrow (start : Bool) (i : List Char) : FRes ArrowStyle :=
  orElse (pvalue ArrowStyle.Circle (ftag "o"))
    (orElse (pvalue ArrowStyle.Cross (ftag "x"))
      (pvalue ArrowStyle.Arrow (ftag (if start then "<" else ">")))) i

/-- `line`: one `-` (normal) or `=` (thick). -/
def line (i : List Char) : FRes LineStyle :=
  orElse (pvalue LineStyle.Normal (ftag "-"))
    (pvalue LineStyle.Thick (ftag "=")) i

/-- `LineTy::set`: record the line style, failing (the caller panics) when
it conflicts with an already recorded one. -/
def lineTySet (ty : Option LineStyle) (s : LineStyle) :
    Except String (Option LineStyle) :=
  match ty with
  | some old => if s = old then .ok (some s) else .error "mixed - and = in the same connection"
  | none => .ok (some s)

/-- `LineTy::get`. -/
def lineTyGet (ty : Option LineStyle) : Except String LineStyle :=
  match ty with
  | some s => .ok s
  | none => .error "line style was never set"

/-- `many1_count(tag("."))`: count the leading dots, at least one. -/
def many1_count_dot (i : List Char) : FRes Nat :=
  let run := i.takeWhile (fun c => c = '.')
  if run.isEmpty then .err i "Many1"
  else .ok (i.drop run.length) run.length

/-- `connector_dotted`: optional arrow, `-`, dots (the rank), `-`, optional
arrow, trailing whitespace. A dot count above 65535 is the source's
`try_into().expect(..)` panic. -/
def connector_dotted (i : List Char) : FRes Connector :=
  fbind (fopt (arrow true) i) fun i arrow_start =>
  fbind (ftag "-" i) fun i _ =>
  fbind (many1_count_dot i) fun i rank =>
  fbind (ftag "-" i) fun i _ =>
  fbind (fopt (arrow false) i) fun i arrow_end =>
  fbind (fws i) fun i _ =>
  if rank ≤ 65535 then
    .ok i ⟨.Dotted, arrow_start, arrow_end, "", rank⟩
  else .fatal "rank must be <= 65535"

/-- One `line` step followed by `LineTy::set` (with the source's
`.expect("TODO error handling")` panic on inconsistency). -/
def line_set (ty : Option LineStyle) (i : List Char) :
    FRes (Option LineStyle) :=
  fbind (line i) fun i s =>
  match lineTySet ty s with
  | .ok ty' => .ok i ty'
  | .error m => .fatal m

/-- The segment-counting loop of `connector_solid`: as long as the next
character is `-` or `=`, consume it via `line`, feed the style to
`LineTy::set`, and bump the rank. -/
def solid_count (ty : Option LineStyle) (rank : Nat) :
    (i : List Char) → FRes (Option LineStyle × Nat)
  | [] => .ok [] (ty, rank)
  | c :: rest =>
    if c = '=' || c = '-' then
      match lineTySet ty (if c = '-' then .Normal else .Thick) with
      | .ok ty' => solid_count ty' (rank + 1) rest
      | .error m => .fatal m
    else .ok (c :: rest) (ty, rank)

/-- `connector_solid`: optional leading arrow (one extra uncounted line
character when absent), a consistent run of line characters counted into the
rank, an optional trailing arrow (its absence subtracts one from the
rank). -/
def connector_solid (i : List Char) : FRes Connector :=
  fbind (fopt (arrow true) i) fun i arrow_start =>
  fbind (if arrow_start.isNone then line_set none i else .ok i none)
    fun i ty0 =>
  fbind (line_set ty0 i) fun i ty1 =>
  fbind (solid_count ty1 1 i) fun i tyrank =>
  fbind (fopt (arrow false) i) fun i arrow_end =>
  let rank := if arrow_end.isNone then tyrank.2 - 1 else tyrank.2
  match lineTyGet tyrank.1 with
  | .ok style => .ok i ⟨style, arrow_start, arrow_end, "", rank⟩
  | .error m => .fatal m

/-- `connector`: dotted first, then solid. -/
def connector (i : List Char) : FRes Connector :=
  orElse connector_dotted connector_solid i

/-- Register a list of nodes (`for node in .. { flow.add_node(node); }`),
panics propagating. -/
def add_nodes (fc : Flowchart) : List Node → Except String Flowchart
  | [] => .ok fc
  | n :: rest =>
    match fc.add_node n with
    | .ok fc' => add_nodes fc' rest
    | .error m => .error m

/-- The nested fan-out loops (`for left in .. { for right in .. {
flow.add_edge(..) } }`). -/
def add_edges_right (fc : Flowchart) (l : Node) (conn : Connector) :
    List Node → Except String Flowchart
  | [] => .ok fc
  | r :: rest =>
    match fc.add_edge l.id r.id conn with
    | .ok fc' => add_edges_right fc' l conn rest
    | .error m => .error m

def add_edges (fc : Flowchart) (lefts rights : List Node) (conn : Connector) :
    Except String Flowchart :=
  match lefts with
  | [] => .ok fc
  | l :: rest =>
    match add_edges_right fc l conn rights with
    | .ok fc' => add_edges fc' rest rights conn
    | .error m => .error m

/-- Lift a model-level panic (`Except.error`) into the parse result. -/
def liftPanic (r : Except String Flowchart)
    (k : Flowchart → FRes Flowchart) : FRes Flowchart :=
  match r with
  | .ok fc => k fc
  | .error m => .fatal m

/-- The `2nd+ connections` loop of `parse_line`: while input remains,
parse a connector and a node list, register the new nodes and chain the fan
out against the previous right-hand list. Fuel bounds the recursion (a
connector always consumes input). -/
def parse_line_more : Nat → List Char → List Node → Flowchart →
    FRes Flowchart
  | 0, _, _, _ => .fatal "no fuel"
  | fuel + 1, i_outer, lefts, fc =>
    if i_outer.isEmpty then .ok i_outer fc
    else
      fbind (connector i_outer) fun i conn =>
      fbind (fws i) fun i _ =>
      fbind (node_list i) fun i rights =>
      fbind (fws i) fun i _ =>
      liftPanic (add_nodes fc rights) fun fc =>
      liftPanic (add_edges fc lefts rights conn) fun fc =>
      parse_line_more fuel i rights fc

/-- `parse_line`: first connection (node list, connector, node list, node
registration, fan out), then the chained continuations. -/
def parse_line (i : List Char) (fc : Flowchart) : FRes Flowchart :=
  fbind (node_list i) fun i left_nodes =>
  fbind (fws i) fun i _ =>
  fbind (connector i) fun i conn =>
  fbind (fws i) fun i _ =>
  fbind (node_list i) fun i right_nodes =>
  fbind (fws i) fun i_outer _ =>
  liftPanic (add_nodes fc left_nodes) fun fc =>
  liftPanic (add_nodes fc right_nodes) fun fc =>
  liftPanic (add_edges fc left_nodes right_nodes conn) fun fc =>
  parse_line_more (i_outer.length + 1) i_outer right_nodes fc

/-- Split into lines as Rust `str::lines`: split at `\n`, drop a final empty
fragment, strip one trailing `\r` per line. -/
def split_newline : List Char → List (List Char)
  | [] => [[]]
  | c :: rest =>
    if c = '\n' then [] :: split_newline rest
    else
      match split_newline rest with
      | h :: t => (c :: h) :: t
      | [] => [[c]]

def strip_cr (l : List Char) : List Char :=
  match l.reverse with
  | '\r' :: r => r.reverse
  | _ => l

def rust_lines (l : List Char) : List (List Char) :=
  match l with
  | [] => []
  | _ =>
    let parts := split_newline l
    let parts := if parts.getLast? = some [] then parts.dropLast else parts
    parts.map strip_cr

/-- Rust `str::trim` on the ASCII inputs at hand. -/
def trim_chars (l : List Char) : List Char :=
  ((l.dropWhile isMultispace).reverse.dropWhile isMultispace).reverse

/-- The per-line loop of the inner `flowchart` parser: trim each line, skip
blank ones, parse the rest into the chart. -/
def parse_all_lines : List (List Char) → Flowchart → FRes Flowchart
  | [], fc => .ok [] fc
  | l :: rest, fc =>
    let l := trim_chars l
    if l.isEmpty then parse_all_lines rest fc
    else
      match parse_line l fc with
      | .ok _ fc' => parse_all_lines rest fc'
      | .err a c => .err a c
      | .fatal m => .fatal m

/-- The inner `flowchart` parser: leading whitespace, the `flowchart`
keyword, the direction, then one statement per non-blank line. -/
def flowchart (i : List Char) : FRes Flowchart :=
  let i := i.dropWhile isMultispace
  fbind (flowchart_tok i) fun i _ =>
  fbind (fws i) fun i _ =>
  fbind (direction i) fun i dir =>
  match parse_all_lines (rust_lines i) (Flowchart.new dir) with
  | .ok _ fc => .ok i fc
  | .err a c => .err a c
  | .fatal m => .fatal m

/-- `parse_flowchart` (`Flowchart::parse`): run the inner parser to
completion. -/
def parse_flowchart (input : List Char) : FRes Flowchart :=
  flowchart input

end Flow

namespace Pie

/-- One data line body as in §8 of the spec: `"L": v` (quoted label, colon,
space, value literal). -/
def chunk (p : List Char × List Char) : List Char :=
  '"' :: (p.1 ++ '"' :: ':' :: ' ' :: p.2)

/-- The body of a pie input of the spec's form `pie\n"L1": v1\n"L2": v2...`:
every data line preceded by a newline. -/
def bodyTail (items : List (List Char × List Char)) : List Char :=
  items.flatMap (fun p => '\n' :: chunk p)

/-- The datum a well-formed data line denotes: label verbatim, value the
recognized literal. -/
def mkDatum (p : List Char × List Char) : Datum :=
  ⟨String.mk p.1, String.mk p.2⟩

/-- A well-formed (label, value-literal) pair: the label contains no double
quote, and the literal is a complete float token — nonempty, not starting
with whitespace, and recognized exactly up to the following newline or end
of input. -/
def GoodItem (p : List Char × List Char) : Prop :=
  ('"' ∉ p.1) ∧ p.2 ≠ [] ∧
  (∀ c, p.2.head? = some c → Mermaid.isMultispace c = false) ∧
  (∀ cs : List Char, (cs = [] ∨ cs.head? = some '\n') →
    recognize_float (p.2 ++ cs) = some (p.2, cs))

end Pie

namespace Flow

/-- A line character of the solid connector syntax. -/
def isLineChar (c : Char) : Bool := c = '-' || c = '='

/-- The `LineStyle` a single line character denotes (`line` in the
source). -/
def chSty (c : Char) : LineStyle := if c = '-' then LineStyle.Normal else LineStyle.Thick

/-- The ordered pairs keying the edges of the chart. -/
def edgeKeys (fc : Flowchart) : List (String × String) :=
  fc.graph.map (fun e => (e.1, e.2.1))

/-- Modelled from the spec: the fan-out of one statement segment adds one
edge per (left, right) pair drawn from the Cartesian product of two adjacent
node lists, carrying the connector. -/
def fanout (lefts rights : List Node) (conn : Connector) :
    List (String × String × Connector) :=
  lefts.flatMap (fun l => rights.map (fun r => (l.id, r.id, conn)))

end Flow

/-! ## Helper lemmas: pie parser -/

namespace Pie

open Mermaid

theorem pbind_ok {α β : Type} {r : PRes α} {f : Span → α → PRes β}
    {s' : Span} {v' : β} (h : pbind r f = .ok (s', v')) :
    ∃ s v, r = .ok (s, v) ∧ f s v = .ok (s', v') := by
  cases r with
  | ok sv =>
    obtain ⟨s, v⟩ := sv
    exact ⟨s, v, rfl, by simpa [pbind] using h⟩
  | error e => simp [pbind] at h

theorem pbind_error {α β : Type} {r : PRes α} {f : Span → α → PRes β}
    {e : Error} (h : pbind r f = .error e) :
    r = .error e ∨ ∃ s v, r = .ok (s, v) ∧ f s v = .error e := by
  cases r with
  | ok sv =>
    obtain ⟨s, v⟩ := sv
    exact Or.inr ⟨s, v, rfl, by simpa [pbind] using h⟩
  | error e' => left; simpa [pbind] using h

theorem ptag_error {lit : String} {s : Span} {e : Error}
    (h : ptag lit s = .error e) : e.kind = .ExpectedLiteral lit := by
  unfold ptag at h
  split at h
  · cases h
  · cases h; rfl

theorem pws_ok {s : Span} {s' : Span} {u : Unit} (h : pws s = .ok (s', u)) :
    s' = s.advance (s.rest.takeWhile isMultispace).length := by
  cases h; rfl

theorem pws_ne_error {s : Span} {e : Error} (h : pws s = .error e) : False := by
  cases h

theorem take_until_quote_error {k : ErrorKind} {s : Span} {e : Error}
    (h : take_until_quote k s = .error e) : e.kind = k := by
  simp only [take_until_quote] at h
  split at h
  · cases h; rfl
  · cases h

theorem pfloat_error {s : Span} {e : Error} (h : pfloat s = .error e) :
    e.kind = .ExpectedFloat none := by
  unfold pfloat at h
  split at h
  · cases h
  · cases h; rfl

theorem popt_ne_error {α : Type} {f : Span → PRes α} {s : Span} {e : Error}
    (h : popt f s = .error e) : False := by
  unfold popt at h
  split at h <;> cases h

theorem quoted_not_UT {s : Span} {e : Error} (h : quoted s = .error e) :
    e.kind ≠ .UnexpectedTrailing := by
  unfold quoted at h
  rcases pbind_error h with h | ⟨s1, v1, _, h⟩
  · rw [ptag_error h]; simp
  rcases pbind_error h with h | ⟨s2, v2, _, h⟩
  · rw [take_until_quote_error h]; simp
  rcases pbind_error h with h | ⟨s3, v3, _, h⟩
  · rw [ptag_error h]; simp
  · cases h

theorem parse_title_not_UT {s : Span} {e : Error}
    (h : parse_title s = .error e) : e.kind ≠ .UnexpectedTrailing := by
  unfold parse_title at h
  rcases pbind_error h with h | ⟨s1, v1, _, h⟩
  · rw [ptag_error h]; simp
  rcases pbind_error h with h | ⟨s2, v2, _, h⟩
  · rw [take_until_quote_error h]; simp
  · cases h

theorem parse_datum_not_UT {s : Span} {e : Error}
    (h : parse_datum s = .error e) : e.kind ≠ .UnexpectedTrailing := by
  unfold parse_datum at h
  rcases pbind_error h with h | ⟨s1, v1, _, h⟩
  · exact quoted_not_UT h
  rcases pbind_error h with h | ⟨s2, v2, _, h⟩
  · exact absurd h pws_ne_error
  rcases pbind_error h with h | ⟨s3, v3, _, h⟩
  · rw [ptag_error h]; simp
  rcases pbind_error h with h | ⟨s4, v4, _, h⟩
  · exact absurd h pws_ne_error
  rcases pbind_error h with h | ⟨s5, v5, _, h⟩
  · rw [pfloat_error h]; simp
  · cases h

theorem parse_header_not_UT {s : Span} {e : Error}
    (h : parse_header s = .error e) : e.kind ≠ .UnexpectedTrailing := by
  unfold parse_header at h
  rcases pbind_error h with h | ⟨s1, v1, _, h⟩
  · rw [ptag_error h]; simp
  rcases pbind_error h with h | ⟨s2, v2, _, h⟩
  · exact absurd h pws_ne_error
  rcases pbind_error h with h | ⟨s3, v3, _, h⟩
  · exact absurd h popt_ne_error
  rcases pbind_error h with h | ⟨s4, v4, _, h⟩
  · exact absurd h pws_ne_error
  rcases pbind_error h with h | ⟨s5, v5, _, h⟩
  · exact absurd h popt_ne_error
  · cases h

theorem pie_loop_not_UT : ∀ (fuel : Nat) (s : Span) (data : List Datum)
    (e : Error), pie_loop fuel s data = .error e →
    e.kind ≠ .UnexpectedTrailing := by
  intro fuel
  induction fuel with
  | zero =>
    intro s data e h
    unfold pie_loop at h
    cases h; simp [Error.new]
  | succ n ih =>
    intro s data e h
    unfold pie_loop at h
    rcases pbind_error h with h | ⟨s1, v1, _, h⟩
    · exact absurd h pws_ne_error
    split at h
    · cases h
    rcases pbind_error h with h | ⟨s2, v2, _, h⟩
    · exact parse_datum_not_UT h
    · exact ih _ _ _ h

/-- No execution of the pie parser ever reports the `UnexpectedTrailing`
error kind: the datum loop consumes everything up to the end of the input or
fails inside a datum first. -/
theorem parse_pie_not_UT {i : List Char} {e : Error}
    (h : parse_pie i = .error e) : e.kind ≠ .UnexpectedTrailing := by
  unfold parse_pie at h
  rcases pbind_error h with h | ⟨s1, v1, _, h⟩
  · exact absurd h pws_ne_error
  rcases pbind_error h with h | ⟨s2, v2, _, h⟩
  · exact parse_header_not_UT h
  rcases pbind_error h with h | ⟨s3, v3, _, h⟩
  · exact pie_loop_not_UT _ _ _ _ h
  split at h
  · cases h
  · cases h; simp [Error.new]

theorem pie_loop_ok_rest : ∀ (fuel : Nat) (s : Span) (data d : List Datum)
    (s' : Span), pie_loop fuel s data = .ok (s', d) → s'.rest = [] := by
  intro fuel
  induction fuel with
  | zero =>
    intro s data d s' h
    unfold pie_loop at h
    cases h
  | succ n ih =>
    intro s data d s' h
    unfold pie_loop at h
    obtain ⟨s1, v1, h1, h⟩ := pbind_ok h
    split at h
    · next hemp => cases h; exact List.isEmpty_iff.mp hemp
    · obtain ⟨s2, d2, h2, h⟩ := pbind_ok h
      exact ih _ _ _ _ h

/-- A successful pie parse consumes the whole input: nothing, not even
whitespace, remains after the data points. -/
theorem parse_pie_ok_rest {i : List Char} {s : Span} {p : Pie}
    (h : parse_pie i = .ok (s, p)) : s.rest = [] := by
  unfold parse_pie at h
  obtain ⟨s1, v1, h1, h⟩ := pbind_ok h
  obtain ⟨s2, v2, h2, h⟩ := pbind_ok h
  obtain ⟨s3, v3, h3, h⟩ := pbind_ok h
  split at h
  · cases h; exact pie_loop_ok_rest _ _ _ _ _ h3
  · cases h

end Pie

namespace Pie

open Mermaid

/-- Claim C1 (counterexample): the input `pie` alone — header parses, zero
data points — does not fail; `parse_pie` returns a valid `Pie` with an empty
data list, contradicting the claim that an empty body is a parse failure. -/
theorem pie_alone_parses_ok :
    parse_pie "pie".data = .ok (⟨"pie".data, []⟩, ⟨none, false, []⟩) := rfl

/-- Claim C1 (amended): for every input whose pie header parses and whose
body contains zero data points (only whitespace follows the header), the
parse succeeds and returns a `Pie` whose data list is empty. -/
theorem pie_empty_body_parses_to_empty_data :
    ∀ (i : List Char) (s0 s1 : Span) (t : Option String) (b : Bool),
    pws ⟨[], i⟩ = .ok (s0, ()) →
    parse_header s0 = .ok (s1, (t, b)) →
    s1.rest.takeWhile isMultispace = s1.rest →
    ∃ s2, parse_pie i = .ok (s2, ⟨t, b, []⟩) := by
  intro i s0 s1 t b h0 h1 hws
  refine ⟨⟨s1.pre ++ s1.rest, []⟩, ?_⟩
  unfold parse_pie
  rw [h0]
  simp only [pbind]
  rw [h1]
  simp only [pbind]
  rw [pie_loop]
  simp only [pws, pbind, Span.advance, hws, List.take_length, List.drop_length]
  simp

/-- Witness for C1's amended theorem at the concrete input `pie`. -/
theorem pie_empty_body_witness :
    pws ⟨[], "pie".data⟩ = .ok (⟨[], "pie".data⟩, ()) ∧
    parse_header ⟨[], "pie".data⟩ = .ok (⟨"pie".data, []⟩, (none, false)) ∧
    List.takeWhile isMultispace ([] : List Char) = [] ∧
    ∃ s2, parse_pie "pie".data = .ok (s2, ⟨none, false, []⟩) :=
  ⟨rfl, rfl, rfl,
    pie_empty_body_parses_to_empty_data "pie".data ⟨[], "pie".data⟩
      ⟨"pie".data, []⟩ none false rfl rfl rfl⟩

/-- Claim C7 (counterexample): on `pie "A": 1 x` — non-whitespace text after
the last data point — the parse fails, but with kind
`ExpectedLiteral "\""` (the failed attempt to parse another data point at
the trailing text), not `UnexpectedTrailing` as the claim states. -/
theorem pie_trailing_error_kind :
    parse_pie "pie \"A\": 1 x".data =
      .error ⟨1, 12, 11, .ExpectedLiteral "\""⟩ ∧
    ErrorKind.ExpectedLiteral "\"" ≠ ErrorKind.UnexpectedTrailing :=
  ⟨rfl, by decide⟩

/-- Claim C7 (amended): an input with trailing text after the last data
point never yields a successful model — a successful parse always consumes
the entire input — but the failure reported for trailing text is the error
of the attempted further data point (e.g. `ExpectedLiteral "\""`), never the
`UnexpectedTrailing` kind, which the parser cannot produce. -/
theorem pie_trailing_input_never_succeeds :
    (∀ (i : List Char) (s : Span) (p : Pie),
      parse_pie i = .ok (s, p) → s.rest = []) ∧
    (∀ (i : List Char) (e : Error),
      parse_pie i = .error e → e.kind ≠ .UnexpectedTrailing) :=
  ⟨fun _ _ _ h => parse_pie_ok_rest h, fun _ _ h => parse_pie_not_UT h⟩

/-- Witness for C7's amended theorem at concrete inputs. -/
theorem pie_trailing_witness :
    (parse_pie "pie".data = .ok (⟨"pie".data, []⟩, ⟨none, false, []⟩) ∧
      Span.rest ⟨"pie".data, []⟩ = []) ∧
    (parse_pie "x".data = .error ⟨1, 1, 0, .ExpectedLiteral "pie"⟩ ∧
      Error.kind ⟨1, 1, 0, .ExpectedLiteral "pie"⟩ ≠ .UnexpectedTrailing) :=
  ⟨⟨rfl, pie_trailing_input_never_succeeds.1 "pie".data ⟨"pie".data, []⟩
      ⟨none, false, []⟩ rfl⟩,
   ⟨rfl, pie_trailing_input_never_succeeds.2 "x".data
      ⟨1, 1, 0, .ExpectedLiteral "pie"⟩ rfl⟩⟩

end Pie

namespace Pie

open Mermaid

theorem takeWhile_all {α : Type} {p : α → Bool} :
    ∀ {l : List α}, (∀ x ∈ l, p x = true) → l.takeWhile p = l := by
  intro l
  induction l with
  | nil => intro _; rfl
  | cons a t ih =>
    intro h
    have ha := h a (by simp)
    simp [List.takeWhile_cons, ha, ih (fun x hx => h x (by simp [hx]))]

theorem takeWhile_append_stop {α : Type} {p : α → Bool} :
    ∀ {l : List α} {c : α} {ys : List α}, (∀ x ∈ l, p x = true) →
    p c = false → (l ++ c :: ys).takeWhile p = l := by
  intro l
  induction l with
  | nil => intro c ys _ hc; simp [List.takeWhile_cons, hc]
  | cons a t ih =>
    intro c ys h hc
    have ha := h a (by simp)
    simp only [List.cons_append, List.takeWhile_cons, ha, if_true]
    rw [ih (fun x hx => h x (by simp [hx])) hc]

theorem ptag_exact (lit : String) (pre rest : List Char) :
    ptag lit ⟨pre, lit.data ++ rest⟩ = .ok (⟨pre ++ lit.data, rest⟩, lit.data) := by
  unfold ptag
  rw [if_pos (List.isPrefixOf_iff_prefix.mpr ⟨rest, rfl⟩)]
  simp [Span.advance, List.take_left, List.drop_left]

theorem take_until_quote_spec (k : ErrorKind) (pre l rest : List Char)
    (hl : '"' ∉ l) :
    take_until_quote k ⟨pre, l ++ '"' :: rest⟩ = .ok (⟨pre ++ l, '"' :: rest⟩, l) := by
  have htw : (l ++ '"' :: rest).takeWhile (fun c => c ≠ '"') = l :=
    takeWhile_append_stop
      (fun x hx => decide_eq_true (fun h => hl (h ▸ hx))) (by decide)
  simp only [take_until_quote, htw]
  rw [if_neg (by simp)]
  simp [Span.advance, List.take_left, List.drop_left]

end Pie

namespace Pie

open Mermaid

theorem quoted_spec (pre l rest : List Char) (hl : '"' ∉ l) :
    ∃ pre', quoted ⟨pre, '"' :: (l ++ '"' :: rest)⟩ = .ok (⟨pre', rest⟩, l) := by
  refine ⟨pre ++ ['"'] ++ l ++ ['"'], ?_⟩
  unfold quoted
  have h1 := ptag_exact "\"" pre (l ++ '"' :: rest)
  simp only [String.data] at h1
  rw [show ('"' :: (l ++ '"' :: rest)) = "\"".data ++ (l ++ '"' :: rest) from rfl, h1]
  simp only [pbind]
  rw [take_until_quote_spec _ _ _ _ hl]
  have h2 := ptag_exact "\"" (pre ++ ['"'] ++ l) rest
  simp only [String.data, List.cons_append, List.nil_append] at h2
  simp only [pbind]
  rw [h2]

theorem pfloat_spec (pre v cs : List Char)
    (hf : recognize_float (v ++ cs) = some (v, cs)) :
    pfloat ⟨pre, v ++ cs⟩ = .ok (⟨pre ++ v, cs⟩, String.mk v) := by
  simp only [pfloat, hf]
  simp [Span.advance, List.take_left, List.drop_left]

theorem parse_datum_spec (pre l v cs : List Char) (hl : '"' ∉ l)
    (hv : v ≠ []) (hh : ∀ c, v.head? = some c → isMultispace c = false)
    (hf : recognize_float (v ++ cs) = some (v, cs)) :
    ∃ pre', parse_datum ⟨pre, '"' :: (l ++ '"' :: ':' :: ' ' :: (v ++ cs))⟩ =
      .ok (⟨pre', cs⟩, ⟨String.mk l, String.mk v⟩) := by
  cases v with
  | nil => exact absurd rfl hv
  | cons c0 v' =>
  unfold parse_datum
  obtain ⟨pre1, hq⟩ := quoted_spec pre l (':' :: ' ' :: (c0 :: v' ++ cs)) hl
  rw [hq]
  simp only [pbind]
  have hc0 : isMultispace c0 = false := hh c0 rfl
  -- ws before ':' consumes nothing
  have hmsc : isMultispace ':' = false := by decide
  have hws1 : pws ⟨pre1, ':' :: ' ' :: (c0 :: v' ++ cs)⟩ =
      .ok (⟨pre1 ++ [], ':' :: ' ' :: (c0 :: v' ++ cs)⟩, ()) := by
    simp [pws, Span.advance, List.takeWhile_cons, hmsc]
  rw [hws1]
  simp only [pbind, List.append_nil]
  rw [show (':' :: ' ' :: (c0 :: v' ++ cs)) = ":".data ++ (' ' :: (c0 :: v' ++ cs)) from rfl,
    ptag_exact ":" pre1 (' ' :: (c0 :: v' ++ cs))]
  simp only [pbind]
  -- ws consumes exactly the single blank before the value
  have hmss : isMultispace ' ' = true := by decide
  have hws2 : pws ⟨pre1 ++ ":".data, ' ' :: (c0 :: v' ++ cs)⟩ =
      .ok (⟨pre1 ++ ":".data ++ [' '], c0 :: v' ++ cs⟩, ()) := by
    simp [pws, Span.advance, List.takeWhile_cons, hmss, hc0]
  rw [hws2]
  simp only [pbind]
  rw [pfloat_spec _ _ _ hf]
  simp only [pbind]
  exact ⟨_, rfl⟩

end Pie

namespace Pie

open Mermaid

theorem bodyTail_shape (items : List (List Char × List Char)) :
    bodyTail items = [] ∨ (bodyTail items).head? = some '\n' := by
  cases items with
  | nil => left; rfl
  | cons p r => right; rfl

theorem bodyTail_len (items : List (List Char × List Char)) :
    items.length ≤ (bodyTail items).length := by
  induction items with
  | nil => simp [bodyTail]
  | cons p r ih =>
    simp only [bodyTail, List.flatMap_cons, List.length_append, List.length_cons]
    simp only [bodyTail] at ih
    omega

/-- The datum loop on a well-formed body whose every data line is preceded
by a newline: it parses exactly the items, in order. -/
theorem pie_loop_tail_spec :
    ∀ (items : List (List Char × List Char)),
    (∀ p ∈ items, GoodItem p) →
    ∀ (fuel : Nat), items.length + 1 ≤ fuel →
    ∀ (pre : List Char) (data : List Datum),
    ∃ s', pie_loop fuel ⟨pre, bodyTail items⟩ data =
      .ok (s', data ++ items.map mkDatum) := by
  intro items
  induction items with
  | nil =>
    intro _ fuel hfuel pre data
    obtain ⟨f, rfl⟩ : ∃ f, fuel = f + 1 := ⟨fuel - 1, by omega⟩
    refine ⟨⟨pre ++ [], []⟩, ?_⟩
    simp [pie_loop, pws, bodyTail, Span.advance, pbind]
  | cons p r ih =>
    intro hgood fuel hfuel pre data
    obtain ⟨f, rfl⟩ : ∃ f, fuel = f + 1 := ⟨fuel - 1, by omega⟩
    obtain ⟨hl, hv, hh, hf⟩ := hgood p (by simp)
    -- shape of the body
    have hbody : bodyTail (p :: r) =
        '\n' :: ('"' :: (p.1 ++ '"' :: ':' :: ' ' :: (p.2 ++ bodyTail r))) := by
      simp [bodyTail, chunk, List.cons_append, List.append_assoc]
    rw [hbody]
    rw [pie_loop]
    have hq : isMultispace '"' = false := by decide
    have hn : isMultispace '\n' = true := by decide
    have hws : pws ⟨pre, '\n' :: ('"' :: (p.1 ++ '"' :: ':' :: ' ' :: (p.2 ++ bodyTail r)))⟩ =
        .ok (⟨pre ++ ['\n'], '"' :: (p.1 ++ '"' :: ':' :: ' ' :: (p.2 ++ bodyTail r))⟩, ()) := by
      simp [pws, Span.advance, List.takeWhile_cons, hn, hq]
    rw [hws]
    simp only [pbind]
    rw [if_neg (by simp)]
    have hfr := hf (bodyTail r) (bodyTail_shape r)
    obtain ⟨pre', hpd⟩ := parse_datum_spec (pre ++ ['\n']) p.1 p.2 (bodyTail r) hl hv hh hfr
    rw [hpd]
    simp only [pbind]
    obtain ⟨s', hrec⟩ := ih (fun q hq => hgood q (by simp [hq])) f (by simpa using hfuel) pre' (data ++ [mkDatum p])
    refine ⟨s', ?_⟩
    show pie_loop f ⟨pre', bodyTail r⟩ (data ++ [mkDatum p]) = _
    rw [hrec]
    simp

end Pie

namespace Pie

open Mermaid

theorem span_append_nil (pre rest : List Char) :
    (⟨pre ++ [], rest⟩ : Span) = ⟨pre, rest⟩ := by simp

/-- `multispace0` consumes nothing when the input starts with a
non-whitespace character (or is empty). -/
theorem pws_stop (s : Span)
    (h : s.rest.takeWhile isMultispace = []) : pws s = .ok (s, ()) := by
  simp [pws, h, Span.advance]

theorem pws_one (s : Span) (c d : Char) (x : List Char)
    (hrest : s.rest = c :: d :: x) (hc : isMultispace c = true)
    (hd : isMultispace d = false) :
    pws s = .ok (⟨s.pre ++ [c], d :: x⟩, ()) := by
  have ht : (c :: d :: x).takeWhile isMultispace = [c] := by
    simp [List.takeWhile_cons, hc, hd]
  simp [pws, hrest, ht, Span.advance]

theorem popt_ptag_no (lit : String) (s : Span)
    (h : lit.data.isPrefixOf s.rest = false) : popt (ptag lit) s = .ok (s, none) := by
  simp [popt, ptag, h]

theorem popt_parse_title_no (s : Span)
    (h : ("title" : String).data.isPrefixOf s.rest = false) :
    popt parse_title s = .ok (s, none) := by
  simp [popt, parse_title, ptag, h, pbind]

/-- The header of a title-less, flag-less pie input with at least one data
line: it consumes `pie` and the first newline and reports no title and no
show-data flag. -/
theorem parse_header_items (p : List Char × List Char)
    (r : List (List Char × List Char)) :
    parse_header ⟨[], "pie".data ++ bodyTail (p :: r)⟩ =
      .ok (⟨"pie".data ++ ['\n'],
            '"' :: (p.1 ++ '"' :: ':' :: ' ' :: (p.2 ++ bodyTail r))⟩,
           (none, false)) := by
  have hbody : bodyTail (p :: r) =
      '\n' :: ('"' :: (p.1 ++ '"' :: ':' :: ' ' :: (p.2 ++ bodyTail r))) := by
    simp [bodyTail, chunk, List.cons_append, List.append_assoc]
  unfold parse_header
  rw [ptag_exact "pie" [] (bodyTail (p :: r))]
  simp only [pbind, List.nil_append]
  rw [pws_one ⟨"pie".data, bodyTail (p :: r)⟩ '\n' '"'
    (p.1 ++ '"' :: ':' :: ' ' :: (p.2 ++ bodyTail r)) (by rw [hbody])
    (by decide) (by decide)]
  simp only [pbind]
  rw [popt_ptag_no "showData" _ (by
    rw [show ("showData" : String).data = 's' :: "howData".data from rfl]
    simp [List.isPrefixOf, show (('s' : Char) == '"') = false from by decide])]
  simp only [pbind]
  rw [pws_stop _ (by simp [List.takeWhile_cons, show isMultispace '"' = false from by decide])]
  simp only [pbind]
  rw [popt_parse_title_no _ (by
    rw [show ("title" : String).data = 't' :: "itle".data from rfl]
    simp [List.isPrefixOf, show (('t' : Char) == '"') = false from by decide])]
  simp only [pbind]
  rfl

/-- For every well-formed pie input of the spec's form
`pie\n"L1": v1\n"L2": v2 ...`, the parse succeeds, preserves source order,
and round-trips every (label, value-literal) pair verbatim. -/
theorem parse_pie_items_spec :
    ∀ (items : List (List Char × List Char)), (∀ p ∈ items, GoodItem p) →
    ∃ s, parse_pie ("pie".data ++ bodyTail items) =
      .ok (s, ⟨none, false, items.map mkDatum⟩) := by
  intro items hgood
  cases items with
  | nil =>
    refine ⟨⟨"pie".data, []⟩, ?_⟩
    rw [show "pie".data ++ bodyTail [] = "pie".data by simp [bodyTail]]
    rfl
  | cons p r =>
    obtain ⟨hl, hv, hh, hf⟩ := hgood p (by simp)
    unfold parse_pie
    rw [pws_stop ⟨[], "pie".data ++ bodyTail (p :: r)⟩ (by
      rw [show ("pie".data : List Char) ++ bodyTail (p :: r) =
        'p' :: ('i' :: 'e' :: bodyTail (p :: r)) from rfl]
      simp [List.takeWhile_cons, show isMultispace 'p' = false from by decide])]
    simp only [pbind]
    rw [parse_header_items p r]
    simp only [pbind]
    -- the datum loop: unroll the first iteration, then use the tail lemma
    rw [pie_loop]
    rw [pws_stop ⟨['p', 'i', 'e'] ++ ['\n'],
        '"' :: (p.1 ++ '"' :: ':' :: ' ' :: (p.2 ++ bodyTail r))⟩ (by
      simp [List.takeWhile_cons, show isMultispace '"' = false from by decide])]
    simp only [pbind]
    rw [if_neg (by simp)]
    have hfr := hf (bodyTail r) (bodyTail_shape r)
    obtain ⟨pre', hpd⟩ := parse_datum_spec (['p', 'i', 'e'] ++ ['\n']) p.1 p.2 (bodyTail r) hl hv hh hfr
    rw [hpd]
    simp only [pbind]
    have hfuel : r.length + 1 ≤
        ('"' :: (p.1 ++ '"' :: ':' :: ' ' :: (p.2 ++ bodyTail r))).length := by
      have := bodyTail_len r
      simp [List.length_append, List.length_cons]
      omega
    obtain ⟨s', hrec⟩ := pie_loop_tail_spec r (fun q hqr => hgood q (by simp [hqr]))
      ('"' :: (p.1 ++ '"' :: ':' :: ' ' :: (p.2 ++ bodyTail r))).length hfuel pre'
      ([] ++ [mkDatum p])
    refine ⟨s', ?_⟩
    have hrec2 : pie_loop ('"' :: (p.1 ++ '"' :: ':' :: ' ' :: (p.2 ++ bodyTail r))).length
        ⟨pre', bodyTail r⟩ ([] ++ [⟨⟨p.1⟩, ⟨p.2⟩⟩]) =
        .ok (s', [] ++ [mkDatum p] ++ r.map mkDatum) := hrec
    rw [hrec2]
    have hrest := pie_loop_ok_rest _ _ _ _ _ hrec
    simp [hrest]

end Pie

namespace Pie

open Mermaid

/-- Claim C9: for every valid pie input of the form
`pie\n"L1": v1\n"L2": v2 ...`, the parsed data preserve source order and
each (label, value) pair round-trips exactly — the label is the quoted
content verbatim, the value is what the recognized literal denotes (the
model stores the literal itself; the source stores its `f64` parse, applied
to exactly this literal). In particular the header example with `showData`
and a title parses to show-data = true, trimmed title "My Title", and data
[(A, 1), (B, 2)] in order. -/
theorem pie_roundtrip :
    (∀ (items : List (List Char × List Char)), (∀ p ∈ items, GoodItem p) →
      ∃ s, parse_pie ("pie".data ++ bodyTail items) =
        .ok (s, ⟨none, false, items.map mkDatum⟩)) ∧
    (∃ s, parse_pie "pie showData title My Title\n\"A\": 1\n\"B\": 2".data =
      .ok (s, ⟨some "My Title", true, [⟨"A", "1"⟩, ⟨"B", "2"⟩]⟩)) :=
  ⟨parse_pie_items_spec, ⟨⟨"pie showData title My Title\n\"A\": 1\n\"B\": 2".data, []⟩, rfl⟩⟩

/-- Witness for C9 at the concrete item list [("A","1"), ("B","2")]. -/
theorem pie_roundtrip_witness :
    (∀ p ∈ [(['A'], ['1']), (['B'], ['2'])], GoodItem p) ∧
    ∃ s, parse_pie ("pie".data ++ bodyTail [(['A'], ['1']), (['B'], ['2'])]) =
      .ok (s, ⟨none, false, [(⟨"A", "1"⟩ : Datum), ⟨"B", "2"⟩]⟩) := by
  have hgood : ∀ p ∈ [((['A'] : List Char), (['1'] : List Char)), (['B'], ['2'])], GoodItem p := by
    intro p hp
    simp only [List.mem_cons, List.mem_singleton] at hp
    rcases hp with rfl | rfl | h
    · refine ⟨by decide, by decide, by decide, ?_⟩
      intro cs hcs
      rcases hcs with rfl | hcs
      · rfl
      · cases cs with
        | nil => rfl
        | cons c cs' =>
          simp only [List.head?] at hcs
          cases hcs
          rfl
    · refine ⟨by decide, by decide, by decide, ?_⟩
      intro cs hcs
      rcases hcs with rfl | hcs
      · rfl
      · cases cs with
        | nil => rfl
        | cons c cs' =>
          simp only [List.head?] at hcs
          cases hcs
          rfl
    · cases h
  exact ⟨hgood, parse_pie_items_spec _ hgood⟩

end Pie

/-! ## Helper lemmas: flowchart model operations -/

namespace Flow

open Mermaid

theorem fbind_ok {α β : Type} {r : FRes α} {f : List Char → α → FRes β}
    {rest : List Char} {v : β} (h : fbind r f = .ok rest v) :
    ∃ rest0 v0, r = .ok rest0 v0 ∧ f rest0 v0 = .ok rest v := by
  cases r with
  | ok r0 v0 => exact ⟨r0, v0, rfl, by simpa [fbind] using h⟩
  | err a c => simp [fbind] at h
  | fatal m => simp [fbind] at h

theorem liftPanic_ok {r : Except String Flowchart}
    {k : Flowchart → FRes Flowchart} {rest : List Char} {v : Flowchart}
    (h : liftPanic r k = .ok rest v) :
    ∃ fc0, r = .ok fc0 ∧ k fc0 = .ok rest v := by
  cases r with
  | ok fc0 => exact ⟨fc0, rfl, by simpa [liftPanic] using h⟩
  | error m => simp [liftPanic] at h

theorem lookup_append_single {l : List (String × Node)} {k : String} {v : Node}
    (h : l.lookup k = none) : (l ++ [(k, v)]).lookup k = some v := by
  induction l with
  | nil => simp [List.lookup]
  | cons p t ih =>
    obtain ⟨a, b⟩ := p
    simp only [List.lookup, List.cons_append] at h ⊢
    split at h
    · cases h
    · exact ih h

theorem add_node_not_present {fc : Flowchart} {n : Node}
    (h : lookupNode fc n.id = none) :
    fc.add_node n = .ok { fc with nodes := fc.nodes ++ [(n.id, n)] } := by
  unfold Flowchart.add_node
  split <;> rw [h]

theorem add_node_present_bare {fc : Flowchart} {n m : Node}
    (h : lookupNode fc n.id = some m) (hb : n.label.isEmpty = true) :
    fc.add_node n = .ok fc := by
  unfold Flowchart.add_node
  rw [if_pos (by simpa [Node.is_id] using hb), h]

theorem add_node_present_labelled {fc : Flowchart} {n m : Node}
    (h : lookupNode fc n.id = some m) (hb : n.label.isEmpty = false) :
    fc.add_node n = .error "node with given name already exists" := by
  unfold Flowchart.add_node
  rw [if_neg (by simp [Node.is_id, hb]), h]

theorem add_node_error_label {fc : Flowchart} {n : Node} {e : String}
    (h : fc.add_node n = .error e) :
    n.label.isEmpty = false ∧ (lookupNode fc n.id).isSome = true := by
  unfold Flowchart.add_node at h
  split at h
  · next hid =>
    split at h
    · cases h
    · cases h
  · next hid =>
    constructor
    · simpa [Node.is_id] using hid
    · split at h
      · next hm => simp [hm]
      · cases h

theorem add_node_graph {fc fc' : Flowchart} {n : Node}
    (h : fc.add_node n = .ok fc') : fc'.graph = fc.graph := by
  unfold Flowchart.add_node at h
  split at h <;> split at h <;> cases h <;> rfl

theorem add_nodes_graph : ∀ {ns : List Node} {fc fc' : Flowchart},
    add_nodes fc ns = .ok fc' → fc'.graph = fc.graph := by
  intro ns
  induction ns with
  | nil => intro fc fc' h; cases h; rfl
  | cons n t ih =>
    intro fc fc' h
    unfold add_nodes at h
    split at h
    · next fc1 h1 => rw [ih h, add_node_graph h1]
    · cases h

theorem add_edge_ok {fc fc' : Flowchart} {f t : String} {c : Connector}
    (h : fc.add_edge f t c = .ok fc') :
    edgeLookup fc.graph f t = none ∧
    fc'.graph = fc.graph ++ [(f, t, c)] ∧ fc'.nodes = fc.nodes := by
  unfold Flowchart.add_edge at h
  split at h
  · split at h
    · cases h
    · next hnone => cases h; exact ⟨hnone, rfl, rfl⟩
  · cases h

theorem edgeLookup_none_not_mem : ∀ {g : List (String × String × Connector)}
    {f t : String}, edgeLookup g f t = none →
    (f, t) ∉ g.map (fun e => (e.1, e.2.1)) := by
  intro g
  induction g with
  | nil => intro f t _; simp
  | cons e rest ih =>
    intro f t h
    obtain ⟨a, b, c⟩ := e
    unfold edgeLookup at h
    split at h
    · cases h
    · next hne =>
      simp only [List.map_cons, List.mem_cons]
      rintro (habs | habs)
      · simp at habs
        obtain ⟨rfl, rfl⟩ := habs
        simp at hne
      · exact ih h habs

theorem add_edge_nodup {fc fc' : Flowchart} {f t : String} {c : Connector}
    (h : fc.add_edge f t c = .ok fc')
    (hn : (edgeKeys fc).Nodup) : (edgeKeys fc').Nodup := by
  obtain ⟨hnone, hg, _⟩ := add_edge_ok h
  have hmem := edgeLookup_none_not_mem hnone
  simp only [edgeKeys] at hn ⊢
  rw [hg, List.map_append, List.nodup_append]
  refine ⟨hn, by simp, ?_⟩
  intro a ha hb
  simp only [List.map_cons, List.map_nil, List.mem_singleton] at hb
  subst hb
  exact hmem ha

end Flow

namespace Flow

open Mermaid

theorem add_edges_right_nodup : ∀ {rs : List Node} {fc fc' : Flowchart}
    {l : Node} {conn : Connector},
    add_edges_right fc l conn rs = .ok fc' →
    (edgeKeys fc).Nodup → (edgeKeys fc').Nodup := by
  intro rs
  induction rs with
  | nil => intro fc fc' l conn h hn; cases h; exact hn
  | cons r t ih =>
    intro fc fc' l conn h hn
    unfold add_edges_right at h
    split at h
    · next fc1 h1 => exact ih h (add_edge_nodup h1 hn)
    · cases h

theorem add_edges_nodup : ∀ {ls : List Node} {fc fc' : Flowchart}
    {rs : List Node} {conn : Connector},
    add_edges fc ls rs conn = .ok fc' →
    (edgeKeys fc).Nodup → (edgeKeys fc').Nodup := by
  intro ls
  induction ls with
  | nil => intro fc fc' rs conn h hn; cases h; exact hn
  | cons l t ih =>
    intro fc fc' rs conn h hn
    unfold add_edges at h
    split at h
    · next fc1 h1 => exact ih h (add_edges_right_nodup h1 hn)
    · cases h

theorem add_nodes_nodup {ns : List Node} {fc fc' : Flowchart}
    (h : add_nodes fc ns = .ok fc')
    (hn : (edgeKeys fc).Nodup) : (edgeKeys fc').Nodup := by
  have := add_nodes_graph h
  simpa [edgeKeys, this] using hn

theorem parse_line_more_nodup : ∀ (fuel : Nat) {i : List Char}
    {lefts : List Node} {fc : Flowchart} {rest : List Char} {fc' : Flowchart},
    parse_line_more fuel i lefts fc = .ok rest fc' →
    (edgeKeys fc).Nodup → (edgeKeys fc').Nodup := by
  intro fuel
  induction fuel with
  | zero => intro i lefts fc rest fc' h hn; cases h
  | succ n ih =>
    intro i lefts fc rest fc' h hn
    unfold parse_line_more at h
    split at h
    · cases h; exact hn
    · obtain ⟨r1, conn, h1, h⟩ := fbind_ok h
      obtain ⟨r2, u2, h2, h⟩ := fbind_ok h
      obtain ⟨r3, rights, h3, h⟩ := fbind_ok h
      obtain ⟨r4, u4, h4, h⟩ := fbind_ok h
      obtain ⟨fc1, hfc1, h⟩ := liftPanic_ok h
      obtain ⟨fc2, hfc2, h⟩ := liftPanic_ok h
      exact ih h (add_edges_nodup hfc2 (add_nodes_nodup hfc1 hn))

theorem parse_line_nodup {i : List Char} {fc : Flowchart} {rest : List Char}
    {fc' : Flowchart} (h : parse_line i fc = .ok rest fc')
    (hn : (edgeKeys fc).Nodup) : (edgeKeys fc').Nodup := by
  unfold parse_line at h
  obtain ⟨r1, lefts, h1, h⟩ := fbind_ok h
  obtain ⟨r2, u2, h2, h⟩ := fbind_ok h
  obtain ⟨r3, conn, h3, h⟩ := fbind_ok h
  obtain ⟨r4, u4, h4, h⟩ := fbind_ok h
  obtain ⟨r5, rights, h5, h⟩ := fbind_ok h
  obtain ⟨r6, u6, h6, h⟩ := fbind_ok h
  obtain ⟨fc1, hfc1, h⟩ := liftPanic_ok h
  obtain ⟨fc2, hfc2, h⟩ := liftPanic_ok h
  obtain ⟨fc3, hfc3, h⟩ := liftPanic_ok h
  exact parse_line_more_nodup _ h
    (add_edges_nodup hfc3 (add_nodes_nodup hfc2 (add_nodes_nodup hfc1 hn)))

theorem parse_all_lines_nodup : ∀ {ls : List (List Char)} {fc : Flowchart}
    {rest : List Char} {fc' : Flowchart},
    parse_all_lines ls fc = .ok rest fc' →
    (edgeKeys fc).Nodup → (edgeKeys fc').Nodup := by
  intro ls
  induction ls with
  | nil => intro fc rest fc' h hn; cases h; exact hn
  | cons l t ih =>
    intro fc rest fc' h hn
    unfold parse_all_lines at h
    dsimp only at h
    split at h
    · exact ih h hn
    · split at h
      · next fc1 h1 => exact ih h (parse_line_nodup h1 hn)
      · cases h
      · cases h

/-- A successfully parsed flowchart never contains two edges with the same
ordered (from, to) pair: `add_edge` is only ever reached with a fresh
pair (a duplicate panics instead). -/
theorem parse_flowchart_nodup {i rest : List Char} {fc : Flowchart}
    (h : parse_flowchart i = .ok rest fc) : (edgeKeys fc).Nodup := by
  unfold parse_flowchart flowchart at h
  obtain ⟨r1, v1, h1, h⟩ := fbind_ok h
  obtain ⟨r2, v2, h2, h⟩ := fbind_ok h
  obtain ⟨r3, dir, h3, h⟩ := fbind_ok h
  split at h
  · next fc0 h0 =>
    cases h
    exact parse_all_lines_nodup h0 (by simp [edgeKeys, Flowchart.new])
  · cases h
  · cases h

end Flow

namespace Flow

open Mermaid

/-- Claim C5: within one flowchart parse, adding a second edge with the same
ordered (from, to) pair is a fatal error: `add_edge` on an existing pair
never succeeds (with registered endpoints it reports the duplicate-edge
panic), a successful parse never contains a duplicate ordered pair, and an
input whose fan-outs repeat a pair produces no flowchart model. -/
theorem duplicate_edge_is_fatal :
    (∀ (fc fc' : Flowchart) (f t : String) (c w : Connector),
      edgeLookup fc.graph f t = some w → fc.add_edge f t c ≠ .ok fc') ∧
    (∀ (fc : Flowchart) (f t : String) (c w : Connector),
      edgeLookup fc.graph f t = some w → (lookupNode fc f).isSome = true →
      (lookupNode fc t).isSome = true →
      fc.add_edge f t c = .error "edge already exists") ∧
    (∀ (i rest : List Char) (fc : Flowchart),
      parse_flowchart i = .ok rest fc → (edgeKeys fc).Nodup) ∧
    parse_flowchart "flowchart TB\nA --> B\nA --> B".data =
      .fatal "edge already exists" := by
  refine ⟨?_, ?_, fun _ _ _ h => parse_flowchart_nodup h, rfl⟩
  · intro fc fc' f t c w h hok
    obtain ⟨hnone, _, _⟩ := add_edge_ok hok
    rw [h] at hnone
    cases hnone
  · intro fc f t c w h hf ht
    unfold Flowchart.add_edge
    rw [if_pos (by rw [hf, ht]; rfl), h]

/-- Witness for C5 at a concrete chart with one existing A→B edge. -/
theorem duplicate_edge_witness :
    (edgeLookup (Flowchart.graph ⟨.TopBottom,
        [("A", "B", ⟨.Normal, none, some .Arrow, "", 1⟩)],
        [("A", ⟨"A", "", .Square⟩), ("B", ⟨"B", "", .Square⟩)]⟩) "A" "B" =
      some ⟨.Normal, none, some .Arrow, "", 1⟩) ∧
    (Flowchart.add_edge ⟨.TopBottom,
        [("A", "B", ⟨.Normal, none, some .Arrow, "", 1⟩)],
        [("A", ⟨"A", "", .Square⟩), ("B", ⟨"B", "", .Square⟩)]⟩ "A" "B"
        ⟨.Normal, none, some .Arrow, "", 1⟩ ≠
      .ok ⟨.TopBottom, [], []⟩) ∧
    (Flowchart.add_edge ⟨.TopBottom,
        [("A", "B", ⟨.Normal, none, some .Arrow, "", 1⟩)],
        [("A", ⟨"A", "", .Square⟩), ("B", ⟨"B", "", .Square⟩)]⟩ "A" "B"
        ⟨.Normal, none, some .Arrow, "", 1⟩ =
      .error "edge already exists") ∧
    (parse_flowchart "flowchart TB\nA --> B".data =
      .ok "\nA --> B".data
        ⟨.TopBottom, [("A", "B", ⟨.Normal, none, some .Arrow, "", 1⟩)],
         [("A", ⟨"A", "", .Square⟩), ("B", ⟨"B", "", .Square⟩)]⟩ ∧
      (edgeKeys ⟨.TopBottom, [("A", "B", ⟨.Normal, none, some .Arrow, "", 1⟩)],
         [("A", ⟨"A", "", .Square⟩), ("B", ⟨"B", "", .Square⟩)]⟩).Nodup) :=
  ⟨rfl,
   duplicate_edge_is_fatal.1 _ _ "A" "B" _ _ rfl,
   duplicate_edge_is_fatal.2.1 _ "A" "B" _ _ rfl rfl rfl,
   rfl,
   duplicate_edge_is_fatal.2.2.1 "flowchart TB\nA --> B".data "\nA --> B".data
     ⟨.TopBottom, [("A", "B", ⟨.Normal, none, some .Arrow, "", 1⟩)],
      [("A", ⟨"A", "", .Square⟩), ("B", ⟨"B", "", .Square⟩)]⟩ rfl⟩

end Flow

namespace Flow

open Mermaid

/-- Claim C4 (counterexample): re-mentioning node A with a *conflicting*
explicit shape but an empty label (`A()`, round, after `A[x]`, square) is
not an error: the parse succeeds and keeps the first declaration, so "a
later mention carrying a conflicting explicit shape/label declaration is an
error" fails as stated. -/
theorem conflicting_empty_label_redecl_not_error :
    parse_flowchart "flowchart TB\nA[x] --> B\nA() --> C".data =
      .ok "\nA[x] --> B\nA() --> C".data
        ⟨.TopBottom,
         [("A", "B", ⟨.Normal, none, some .Arrow, "", 1⟩),
          ("A", "C", ⟨.Normal, none, some .Arrow, "", 1⟩)],
         [("A", ⟨"A", "x", .Square⟩), ("B", ⟨"B", "", .Square⟩),
          ("C", ⟨"C", "", .Square⟩)]⟩ ∧
    lookupNode
      ⟨.TopBottom,
       [("A", "B", ⟨.Normal, none, some .Arrow, "", 1⟩),
        ("A", "C", ⟨.Normal, none, some .Arrow, "", 1⟩)],
       [("A", ⟨"A", "x", .Square⟩), ("B", ⟨"B", "", .Square⟩),
        ("C", ⟨"C", "", .Square⟩)]⟩ "A" = some ⟨"A", "x", .Square⟩ :=
  ⟨rfl, rfl⟩

/-- Claim C4 (amended): per identifier, the first mention registers the
node; a later mention whose label is empty (bare or with an explicit shape)
is a no-op keeping the first declaration; a later mention carrying a
non-empty label — conflicting or not — is the duplicate-declaration error;
re-declaring a labelled node on a parsed input aborts the parse. -/
theorem node_redeclaration_rules :
    (∀ (fc : Flowchart) (n : Node), lookupNode fc n.id = none →
      ∃ fc', fc.add_node n = .ok fc' ∧ lookupNode fc' n.id = some n) ∧
    (∀ (fc : Flowchart) (n m : Node), lookupNode fc n.id = some m →
      n.label.isEmpty = true → fc.add_node n = .ok fc) ∧
    (∀ (fc : Flowchart) (n m : Node), lookupNode fc n.id = some m →
      n.label.isEmpty = false →
      fc.add_node n = .error "node with given name already exists") ∧
    parse_flowchart "flowchart TB\nA[x] --> B\nA[y] --> C".data =
      .fatal "node with given name already exists" := by
  refine ⟨?_, fun fc n m h hb => add_node_present_bare h hb,
    fun fc n m h hb => add_node_present_labelled h hb, rfl⟩
  intro fc n h
  exact ⟨_, add_node_not_present h, lookup_append_single h⟩

/-- Witness for C4's amended theorem at concrete charts. -/
theorem node_redeclaration_witness :
    (lookupNode ⟨.TopBottom, [], []⟩ "A" = none ∧
      ∃ fc', Flowchart.add_node ⟨.TopBottom, [], []⟩ ⟨"A", "x", .Square⟩ =
          .ok fc' ∧ lookupNode fc' "A" = some ⟨"A", "x", .Square⟩) ∧
    (lookupNode ⟨.TopBottom, [], [("A", ⟨"A", "x", .Square⟩)]⟩ "A" =
        some ⟨"A", "x", .Square⟩ ∧
      String.isEmpty (Node.label ⟨"A", "", .Round⟩) = true ∧
      Flowchart.add_node ⟨.TopBottom, [], [("A", ⟨"A", "x", .Square⟩)]⟩
        ⟨"A", "", .Round⟩ = .ok ⟨.TopBottom, [], [("A", ⟨"A", "x", .Square⟩)]⟩) ∧
    (String.isEmpty (Node.label ⟨"A", "y", .Square⟩) = false ∧
      Flowchart.add_node ⟨.TopBottom, [], [("A", ⟨"A", "x", .Square⟩)]⟩
        ⟨"A", "y", .Square⟩ = .error "node with given name already exists") :=
  ⟨⟨rfl, node_redeclaration_rules.1 ⟨.TopBottom, [], []⟩ ⟨"A", "x", .Square⟩ rfl⟩,
   ⟨rfl, rfl, node_redeclaration_rules.2.1 _ ⟨"A", "", .Round⟩ ⟨"A", "x", .Square⟩ rfl rfl⟩,
   ⟨rfl, node_redeclaration_rules.2.2.1 _ ⟨"A", "y", .Square⟩ ⟨"A", "x", .Square⟩ rfl rfl⟩⟩

/-- Claim C10: a node written with an explicit shape delimiter but an empty
label (`A()`, `A[]`) is classified as a bare mention — only label emptiness
is checked — so when the id is already registered the mention, shape
included, is silently discarded with no duplicate error; the duplicate
error fires only for a non-empty label. -/
theorem empty_label_is_bare_mention :
    node "A()".data = .ok [] ⟨"A", "", .Round⟩ ∧
    node "A[]".data = .ok [] ⟨"A", "", .Square⟩ ∧
    (∀ (fc : Flowchart) (n m : Node), n.label.isEmpty = true →
      lookupNode fc n.id = some m → fc.add_node n = .ok fc) ∧
    (∀ (fc : Flowchart) (n : Node) (e : String), fc.add_node n = .error e →
      n.label.isEmpty = false) ∧
    (parse_flowchart "flowchart TB\nA{y} --> B\nA() --> C".data =
      .ok "\nA{y} --> B\nA() --> C".data
        ⟨.TopBottom,
         [("A", "B", ⟨.Normal, none, some .Arrow, "", 1⟩),
          ("A", "C", ⟨.Normal, none, some .Arrow, "", 1⟩)],
         [("A", ⟨"A", "y", .Rhombus⟩), ("B", ⟨"B", "", .Square⟩),
          ("C", ⟨"C", "", .Square⟩)]⟩) :=
  ⟨rfl, rfl, fun _ _ _ hb h => add_node_present_bare h hb,
   fun _ _ _ h => (add_node_error_label h).1, rfl⟩

/-- Witness for C10 at a concrete chart. -/
theorem empty_label_bare_witness :
    (String.isEmpty (Node.label ⟨"A", "", .Round⟩) = true ∧
      lookupNode ⟨.TopBottom, [], [("A", ⟨"A", "y", .Rhombus⟩)]⟩ "A" =
        some ⟨"A", "y", .Rhombus⟩ ∧
      Flowchart.add_node ⟨.TopBottom, [], [("A", ⟨"A", "y", .Rhombus⟩)]⟩
        ⟨"A", "", .Round⟩ = .ok ⟨.TopBottom, [], [("A", ⟨"A", "y", .Rhombus⟩)]⟩) ∧
    (Flowchart.add_node ⟨.TopBottom, [], [("A", ⟨"A", "y", .Rhombus⟩)]⟩
        ⟨"A", "z", .Square⟩ = .error "node with given name already exists" ∧
      String.isEmpty (Node.label ⟨"A", "z", .Square⟩) = false) :=
  ⟨⟨rfl, rfl, empty_label_is_bare_mention.2.2.1 _ ⟨"A", "", .Round⟩
      ⟨"A", "y", .Rhombus⟩ rfl rfl⟩,
   ⟨rfl, empty_label_is_bare_mention.2.2.2.1
      ⟨.TopBottom, [], [("A", ⟨"A", "y", .Rhombus⟩)]⟩ ⟨"A", "z", .Square⟩
      "node with given name already exists" rfl⟩⟩

end Flow

namespace Flow

open Mermaid

theorem fws_stop {c : Char} {x : List Char} (h : isSpaceTab c = false) :
    fws (c :: x) = .ok (c :: x) () := by
  simp [fws, List.dropWhile_cons, h]

theorem node_style_end_subroutine_err {xs : List Char}
    (h : ("]]" : String).data.isPrefixOf xs = false) :
    node_style_end "[[" xs = .err xs "Tag" := by
  have : node_style_end "[[" xs = match_end_tester [("]]", .Subroutine)] xs := rfl
  rw [this]
  unfold match_end_tester
  rw [h]
  rfl

theorem input_until_aux_spec {α : Type} (p : List Char → FRes α) :
    ∀ (lab : List Char) (t : Char) (ts orig taken r : List Char) (v : α),
    (∀ j, j < lab.length →
      ∃ a c, p ((lab ++ t :: ts).drop j) = .err a c) →
    p (t :: ts) = .ok r v →
    input_until_aux p orig taken (lab ++ t :: ts) = .ok r (taken ++ lab, v) := by
  intro lab
  induction lab with
  | nil =>
    intro t ts orig taken r v _ hp
    show input_until_aux p orig taken (t :: ts) = _
    unfold input_until_aux
    rw [hp]
    simp
  | cons c lab' ih =>
    intro t ts orig taken r v herr hp
    obtain ⟨a0, c0, h0⟩ := herr 0 (by simp)
    simp only [List.drop_zero, List.cons_append] at h0
    show input_until_aux p orig taken (c :: (lab' ++ t :: ts)) = _
    unfold input_until_aux
    rw [h0]
    rw [ih t ts orig (taken ++ [c]) r v
      (fun j hj => by
        have := herr (j + 1) (by simpa using Nat.succ_lt_succ hj)
        simpa using this) hp]
    simp

/-- The unquoted-label scan of a subroutine node `A[[`: the label is exactly
everything before the first `]]`; the hypotheses say the label does not
start with skippable whitespace or a quote and that `]]` does not match at
any earlier offset. -/
theorem node_subroutine_scan (lab rest' : List Char)
    (h1 : lab.head? ≠ some ' ') (h2 : lab.head? ≠ some '\t')
    (h3 : lab.head? ≠ some '"')
    (h4 : ∀ j, j < lab.length →
      ("]]" : String).data.isPrefixOf ((lab ++ ']' :: ']' :: rest').drop j) = false) :
    node ('A' :: '[' :: '[' :: (lab ++ ']' :: ']' :: rest')) =
      .ok rest' ⟨"A", String.mk lab, .Subroutine⟩ := by
  unfold node
  have hid : ident ('A' :: '[' :: '[' :: (lab ++ ']' :: ']' :: rest')) =
      .ok ('[' :: '[' :: (lab ++ ']' :: ']' :: rest')) "A" := by
    simp [ident, List.takeWhile_cons]
  rw [hid]
  simp only [fbind]
  rw [fws_stop (by decide)]
  simp only [fbind]
  have hss : fopt node_style_start ('[' :: '[' :: (lab ++ ']' :: ']' :: rest')) =
      .ok (lab ++ ']' :: ']' :: rest') (some "[[") := by
    simp [fopt, node_style_start, orElse, pvalue, ftag, List.isPrefixOf]
  rw [hss]
  simp only [fbind]
  -- whitespace after the start delimiter consumes nothing
  have hws : fws (lab ++ ']' :: ']' :: rest') = .ok (lab ++ ']' :: ']' :: rest') () := by
    cases lab with
    | nil => exact fws_stop (by decide)
    | cons c lab' =>
      refine fws_stop ?_
      simp only [List.head?] at h1 h2
      simp [isSpaceTab]
      exact ⟨fun h => h1 (by rw [h]), fun h => h2 (by rw [h])⟩
  rw [hws]
  simp only [fbind]
  rw [if_neg (by
    cases lab with
    | nil => simp
    | cons c lab' =>
      simp only [List.head?] at h3
      simp only [List.cons_append, List.head?]
      intro h
      exact h3 (by rw [h]))]
  unfold node_label_unquoted
  have hend : node_style_end "[[" (']' :: ']' :: rest') = .ok rest' .Subroutine := by
    simp [node_style_end, match_end_tester, List.isPrefixOf]
  rw [input_until_aux_spec (node_style_end "[[") lab ']' (']' :: rest') _ [] rest' .Subroutine
    (fun j hj => ⟨_, _, node_style_end_subroutine_err (h4 j hj)⟩) hend]
  simp only [fbind, List.nil_append]

end Flow

namespace Flow

open Mermaid

/-- Claim C3 (counterexample): `A[[ text ]]` parses to subroutine node A
with label "text " — the blank after `[[` is skipped by the whitespace step
before the label scan — not " text " as the claim states. -/
theorem node_subroutine_label_leading_ws :
    node "A[[ text ]]".data = .ok [] ⟨"A", "text ", .Subroutine⟩ ∧
    ("text " : String) ≠ " text " :=
  ⟨rfl, by decide⟩

/-- Claim C3 (amended): in `A[[ text ]]` the unquoted label is everything
scanned between the shape-start delimiter — after the parser skips
horizontal whitespace following it — and the first valid end delimiter, so
the node gets the subroutine shape and label "text " (trailing and interior
whitespace preserved, leading whitespace skipped); in general the label is
exactly the scanned text up to the first `]]`. -/
theorem node_unquoted_label_scan :
    (parse_flowchart "flowchart TB\nA[[ text ]] ----> C & D".data =
      .ok "\nA[[ text ]] ----> C & D".data
        ⟨.TopBottom,
         [("A", "C", ⟨.Normal, none, some .Arrow, "", 3⟩),
          ("A", "D", ⟨.Normal, none, some .Arrow, "", 3⟩)],
         [("A", ⟨"A", "text ", .Subroutine⟩), ("C", ⟨"C", "", .Square⟩),
          ("D", ⟨"D", "", .Square⟩)]⟩) ∧
    (∀ (lab rest' : List Char),
      lab.head? ≠ some ' ' → lab.head? ≠ some '\t' → lab.head? ≠ some '"' →
      (∀ j, j < lab.length →
        ("]]" : String).data.isPrefixOf ((lab ++ ']' :: ']' :: rest').drop j) = false) →
      node ('A' :: '[' :: '[' :: (lab ++ ']' :: ']' :: rest')) =
        .ok rest' ⟨"A", String.mk lab, .Subroutine⟩) :=
  ⟨rfl, node_subroutine_scan⟩

/-- Witness for C3's amended theorem at the label "text ". -/
theorem node_unquoted_label_scan_witness :
    (List.head? "text ".data ≠ some ' ' ∧ List.head? "text ".data ≠ some '\t' ∧
      List.head? "text ".data ≠ some '"' ∧
      (∀ j, j < "text ".data.length →
        ("]]" : String).data.isPrefixOf
          (("text ".data ++ ']' :: ']' :: []).drop j) = false)) ∧
    node ('A' :: '[' :: '[' :: ("text ".data ++ ']' :: ']' :: [])) =
      .ok [] ⟨"A", String.mk "text ".data, .Subroutine⟩ :=
  ⟨⟨by decide, by decide, by decide, by decide⟩,
   node_unquoted_label_scan.2 "text ".data [] (by decide) (by decide)
     (by decide) (by decide)⟩

end Flow

namespace Flow

open Mermaid

theorem add_edges_right_eq : ∀ {rs : List Node} {fc fc' : Flowchart}
    {l : Node} {conn : Connector},
    add_edges_right fc l conn rs = .ok fc' →
    fc'.graph = fc.graph ++ rs.map (fun r => (l.id, r.id, conn)) ∧
    fc'.nodes = fc.nodes ∧ fc'.direction = fc.direction := by
  intro rs
  induction rs with
  | nil => intro fc fc' l conn h; cases h; simp
  | cons r t ih =>
    intro fc fc' l conn h
    unfold add_edges_right at h
    split at h
    · next fc1 h1 =>
      obtain ⟨_, hg, hn⟩ := add_edge_ok h1
      obtain ⟨hg', hn', hd'⟩ := ih h
      refine ⟨?_, by rw [hn', hn], ?_⟩
      · rw [hg', hg]; simp
      · rw [hd']
        unfold Flowchart.add_edge at h1
        split at h1
        · split at h1
          · cases h1
          · cases h1; rfl
        · cases h1
    · cases h

/-- The fan-out of one statement segment appends exactly one edge per
(left, right) pair of the Cartesian product, in order, and touches nothing
else of the chart. -/
theorem add_edges_eq : ∀ {ls : List Node} {fc fc' : Flowchart}
    {rs : List Node} {conn : Connector},
    add_edges fc ls rs conn = .ok fc' →
    fc'.graph = fc.graph ++ fanout ls rs conn ∧
    fc'.nodes = fc.nodes ∧ fc'.direction = fc.direction := by
  intro ls
  induction ls with
  | nil => intro fc fc' rs conn h; cases h; simp [fanout]
  | cons l t ih =>
    intro fc fc' rs conn h
    unfold add_edges at h
    split at h
    · next fc1 h1 =>
      obtain ⟨hg, hn, hd⟩ := add_edges_right_eq h1
      obtain ⟨hg', hn', hd'⟩ := ih h
      exact ⟨by rw [hg', hg]; simp [fanout], by rw [hn', hn], by rw [hd', hd]⟩
    · cases h

/-- Claim C8: a statement is node-list, connector, node-list, then chained
"connector + node-list" continuations against the previous node-list, with
one edge per (left, right) pair of the Cartesian product of adjacent lists:
`A --> B --> C` yields exactly A→B and B→C, and
`flowchart TB\nA --> C\nA --> D` yields exactly nodes A, C, D (square,
empty label) and edges A→C, A→D (normal, no start arrow, end arrow,
rank 1). -/
theorem statement_fanout_cartesian :
    (∀ (fc fc' : Flowchart) (lefts rights : List Node) (conn : Connector),
      add_edges fc lefts rights conn = .ok fc' →
      fc'.graph = fc.graph ++ fanout lefts rights conn ∧
      fc'.nodes = fc.nodes) ∧
    (parse_flowchart "flowchart TB\nA --> B --> C".data =
      .ok "\nA --> B --> C".data
        ⟨.TopBottom,
         [("A", "B", ⟨.Normal, none, some .Arrow, "", 1⟩),
          ("B", "C", ⟨.Normal, none, some .Arrow, "", 1⟩)],
         [("A", ⟨"A", "", .Square⟩), ("B", ⟨"B", "", .Square⟩),
          ("C", ⟨"C", "", .Square⟩)]⟩) ∧
    (parse_flowchart "flowchart TB\nA --> C\nA --> D".data =
      .ok "\nA --> C\nA --> D".data
        ⟨.TopBottom,
         [("A", "C", ⟨.Normal, none, some .Arrow, "", 1⟩),
          ("A", "D", ⟨.Normal, none, some .Arrow, "", 1⟩)],
         [("A", ⟨"A", "", .Square⟩), ("C", ⟨"C", "", .Square⟩),
          ("D", ⟨"D", "", .Square⟩)]⟩) :=
  ⟨fun _ _ _ _ _ h => ⟨(add_edges_eq h).1, (add_edges_eq h).2.1⟩, rfl, rfl⟩

/-- Witness for C8's fan-out equation at a concrete two-by-one fan-out. -/
theorem statement_fanout_witness :
    (add_edges ⟨.TopBottom, [],
        [("A", ⟨"A", "", .Square⟩), ("B", ⟨"B", "", .Square⟩),
         ("C", ⟨"C", "", .Square⟩)]⟩
      [⟨"A", "", .Square⟩, ⟨"B", "", .Square⟩] [⟨"C", "", .Square⟩]
      ⟨.Normal, none, some .Arrow, "", 1⟩ =
      .ok ⟨.TopBottom,
        [("A", "C", ⟨.Normal, none, some .Arrow, "", 1⟩),
         ("B", "C", ⟨.Normal, none, some .Arrow, "", 1⟩)],
        [("A", ⟨"A", "", .Square⟩), ("B", ⟨"B", "", .Square⟩),
         ("C", ⟨"C", "", .Square⟩)]⟩) ∧
    Flowchart.graph ⟨.TopBottom,
        [("A", "C", ⟨.Normal, none, some .Arrow, "", 1⟩),
         ("B", "C", ⟨.Normal, none, some .Arrow, "", 1⟩)],
        [("A", ⟨"A", "", .Square⟩), ("B", ⟨"B", "", .Square⟩),
         ("C", ⟨"C", "", .Square⟩)]⟩ =
      [] ++ fanout [⟨"A", "", .Square⟩, ⟨"B", "", .Square⟩]
        [⟨"C", "", .Square⟩] ⟨.Normal, none, some .Arrow, "", 1⟩ :=
  ⟨rfl,
   (statement_fanout_cartesian.1
     ⟨.TopBottom, [],
      [("A", ⟨"A", "", .Square⟩), ("B", ⟨"B", "", .Square⟩),
       ("C", ⟨"C", "", .Square⟩)]⟩
     ⟨.TopBottom,
      [("A", "C", ⟨.Normal, none, some .Arrow, "", 1⟩),
       ("B", "C", ⟨.Normal, none, some .Arrow, "", 1⟩)],
      [("A", ⟨"A", "", .Square⟩), ("B", ⟨"B", "", .Square⟩),
       ("C", ⟨"C", "", .Square⟩)]⟩
     [⟨"A", "", .Square⟩, ⟨"B", "", .Square⟩] [⟨"C", "", .Square⟩]
     ⟨.Normal, none, some .Arrow, "", 1⟩ rfl).1⟩

end Flow

/-! ## Helper lemmas: connector decomposition -/

namespace Flow

open Mermaid

theorem ftag_ok_decomp {lit : String} {i r v : List Char}
    (h : ftag lit i = .ok r v) : i = lit.data ++ r ∧ v = lit.data := by
  unfold ftag at h
  split at h
  · next hp =>
    cases h
    obtain ⟨t, ht⟩ := List.isPrefixOf_iff_prefix.mp hp
    subst ht
    rw [List.drop_left]
    exact ⟨rfl, rfl⟩
  · cases h

theorem orElse_ok {α : Type} {p q : List Char → FRes α} {i r : List Char}
    {v : α} (h : orElse p q i = .ok r v) :
    p i = .ok r v ∨ q i = .ok r v := by
  unfold orElse at h
  split at h
  · right; exact h
  · next hne => left; exact h

theorem pvalue_ok {α β : Type} {v : α} {p : List Char → FRes β}
    {i r : List Char} {w : α} (h : pvalue v p i = .ok r w) :
    w = v ∧ ∃ u, p i = .ok r u := by
  unfold pvalue at h
  cases hpi : p i with
  | ok rest u => rw [hpi] at h; cases h; exact ⟨rfl, u, rfl⟩
  | err a c => rw [hpi] at h; cases h
  | fatal m => rw [hpi] at h; cases h

theorem fopt_ok {α : Type} {p : List Char → FRes α} {i r : List Char}
    {v : Option α} (h : fopt p i = .ok r v) :
    (v = none ∧ r = i) ∨ ∃ w, v = some w ∧ p i = .ok r w := by
  unfold fopt at h
  cases hpi : p i with
  | ok rest u => rw [hpi] at h; cases h; exact Or.inr ⟨u, rfl, rfl⟩
  | err a c => rw [hpi] at h; cases h; exact Or.inl ⟨rfl, rfl⟩
  | fatal m => rw [hpi] at h; cases h

theorem arrow_ok {b : Bool} {i r : List Char} {a : ArrowStyle}
    (h : arrow b i = .ok r a) :
    ∃ c, i = c :: r ∧ isLineChar c = false ∧ (c = '.') = False := by
  unfold arrow at h
  rcases orElse_ok h with h | h
  · obtain ⟨_, u, hp⟩ := pvalue_ok h
    obtain ⟨hi, _⟩ := ftag_ok_decomp hp
    exact ⟨'o', by simpa using hi, by decide, by simp⟩
  rcases orElse_ok h with h | h
  · obtain ⟨_, u, hp⟩ := pvalue_ok h
    obtain ⟨hi, _⟩ := ftag_ok_decomp hp
    exact ⟨'x', by simpa using hi, by decide, by simp⟩
  · obtain ⟨_, u, hp⟩ := pvalue_ok h
    obtain ⟨hi, _⟩ := ftag_ok_decomp hp
    cases b with
    | true => exact ⟨'<', by simpa using hi, by decide, by simp⟩
    | false => exact ⟨'>', by simpa using hi, by decide, by simp⟩

theorem fws_ok_decomp {i r : List Char} {u : Unit} (h : fws i = .ok r u) :
    ∃ w, i = w ++ r ∧ ∀ c ∈ w, isSpaceTab c = true := by
  cases h
  exact ⟨i.takeWhile isSpaceTab, (List.takeWhile_append_dropWhile _ _).symm,
    fun c hc => List.mem_takeWhile_imp hc⟩

theorem many1_count_dot_ok {i r : List Char} {n : Nat}
    (h : many1_count_dot i = .ok r n) :
    i = List.replicate n '.' ++ r ∧ 1 ≤ n := by
  unfold many1_count_dot at h
  dsimp only at h
  split at h
  · cases h
  · next hne =>
    cases h
    have hall : ∀ c ∈ i.takeWhile (fun c => c = '.'), c = '.' := by
      intro c hc
      simpa using List.mem_takeWhile_imp hc
    have hrep : List.replicate (i.takeWhile (fun c => c = '.')).length '.' =
        i.takeWhile (fun c => c = '.') :=
      (List.eq_replicate_iff.mpr ⟨rfl, hall⟩).symm
    have hdrop : ∀ (l : List Char) (q : Char → Bool),
        l.drop (l.takeWhile q).length = l.dropWhile q := by
      intro l q
      induction l with
      | nil => rfl
      | cons a t ih =>
        by_cases hq : q a <;>
          simp [List.takeWhile_cons, List.dropWhile_cons, hq, ih]
    refine ⟨?_, ?_⟩
    · rw [hrep, hdrop]
      exact (List.takeWhile_append_dropWhile _ _).symm
    · have hne' : i.takeWhile (fun c => c = '.') ≠ [] := by
        simpa [List.isEmpty_iff] using hne
      exact List.length_pos.mpr hne'

end Flow

namespace Flow

open Mermaid

theorem line_ok {i r : List Char} {s : LineStyle} (h : line i = .ok r s) :
    ∃ c, i = c :: r ∧ isLineChar c = true ∧ s = chSty c := by
  unfold line at h
  rcases orElse_ok h with h | h
  · obtain ⟨hs, u, hp⟩ := pvalue_ok h
    obtain ⟨hi, _⟩ := ftag_ok_decomp hp
    exact ⟨'-', by simpa using hi, by decide, by simp [hs, chSty]⟩
  · obtain ⟨hs, u, hp⟩ := pvalue_ok h
    obtain ⟨hi, _⟩ := ftag_ok_decomp hp
    exact ⟨'=', by simpa using hi, by decide, by simp [hs, chSty]⟩

theorem lineTySet_ok {ty : Option LineStyle} {s : LineStyle}
    {ty' : Option LineStyle} (h : lineTySet ty s = .ok ty') :
    ty' = some s ∧ ∀ s0, ty = some s0 → s0 = s := by
  unfold lineTySet at h
  cases ty with
  | none => cases h; exact ⟨rfl, by simp⟩
  | some old =>
    simp only at h
    split at h
    · next he => cases h; exact ⟨rfl, fun s0 hs0 => by cases hs0; exact he.symm⟩
    · cases h

theorem line_set_ok {ty : Option LineStyle} {i r : List Char}
    {ty' : Option LineStyle} (h : line_set ty i = .ok r ty') :
    ∃ c, i = c :: r ∧ isLineChar c = true ∧ ty' = some (chSty c) ∧
      ∀ s0, ty = some s0 → s0 = chSty c := by
  unfold line_set at h
  obtain ⟨r1, s, h1, h⟩ := fbind_ok h
  obtain ⟨c, hi, hlc, hs⟩ := line_ok h1
  cases hset : lineTySet ty s with
  | ok ty2 =>
    rw [hset] at h
    cases h
    obtain ⟨hty2, hold⟩ := lineTySet_ok hset
    exact ⟨c, hi, hlc, by rw [hty2, hs], fun s0 h0 => by rw [hold s0 h0, hs]⟩
  | error m => rw [hset] at h; cases h

theorem solid_count_ok : ∀ (i : List Char) {ty : Option LineStyle}
    {rank : Nat} {r : List Char} {ty' : Option LineStyle} {rank' : Nat},
    solid_count ty rank i = .ok r (ty', rank') →
    ∃ run, i = run ++ r ∧ rank' = rank + run.length ∧
      (∀ c ∈ run, isLineChar c = true ∧ ty' = some (chSty c)) ∧
      (∀ s0, ty = some s0 → ty' = some s0) ∧
      (run = [] → ty' = ty) := by
  intro i
  induction i with
  | nil =>
    intro ty rank r ty' rank' h
    unfold solid_count at h
    cases h
    exact ⟨[], rfl, by simp, by simp, fun _ h => by rw [h], fun _ => rfl⟩
  | cons c t ih =>
    intro ty rank r ty' rank' h
    unfold solid_count at h
    split at h
    · next hlc =>
      cases hset : lineTySet ty (if c = '-' then .Normal else .Thick) with
      | ok ty2 =>
        rw [hset] at h
        obtain ⟨run', hi, hrank, hmem, hsome, hnil⟩ := ih h
        obtain ⟨hty2, hold⟩ := lineTySet_ok hset
        have hty'c : ty' = some (chSty c) := by
          rcases run' with _ | ⟨d, run''⟩
          · rw [hnil rfl, hty2]; rfl
          · have := (hmem d (by simp)).2
            have hd := (hmem d (by simp)).1
            -- ty' = some (chSty d); need chSty d = chSty c via the chain
            -- from set: ty2 = some (if c = '-' ...) = some (chSty c)
            -- and hsome at ty2
            have h2 := hsome (chSty c) (by rw [hty2]; rfl)
            exact h2
        have hlc' : isLineChar c = true := by
          simp only [decide_eq_true_eq, Bool.or_eq_true] at hlc
          simp only [isLineChar, decide_eq_true_eq, Bool.or_eq_true]
          tauto
        refine ⟨c :: run', by rw [hi, List.cons_append],
          by simp [hrank]; omega, ?_, ?_, by simp⟩
        · intro d hd
          rcases List.mem_cons.mp hd with rfl | hd
          · exact ⟨hlc', hty'c⟩
          · exact hmem d hd
        · intro s0 hs0
          rw [hold s0 hs0]
          exact hty'c
      | error m => rw [hset] at h; cases h
    · next hlc =>
      cases h
      refine ⟨[], rfl, by simp, by simp, fun _ h => by rw [h], fun _ => rfl⟩

end Flow

namespace Flow

open Mermaid

theorem fopt_arrow_decomp {b : Bool} {i r : List Char} {a : Option ArrowStyle}
    (h : fopt (arrow b) i = .ok r a) :
    ∃ w, i = w ++ r ∧ w.countP (fun c => c = '.') = 0 ∧
      w.countP isLineChar = 0 ∧ (a.isNone = true ↔ w = []) := by
  rcases fopt_ok h with ⟨rfl, rfl⟩ | ⟨s, rfl, hp⟩
  · exact ⟨[], rfl, rfl, rfl, by simp⟩
  · obtain ⟨c, rfl, hlc, hdot⟩ := arrow_ok hp
    refine ⟨[c], rfl, ?_, ?_, by simp⟩
    · simp [List.countP_cons, hdot]
    · simp [List.countP_cons, hlc]

theorem fws_counts {i r : List Char} {u : Unit} (h : fws i = .ok r u) :
    ∃ w, i = w ++ r ∧ w.countP (fun c => c = '.') = 0 ∧
      w.countP isLineChar = 0 := by
  obtain ⟨w, rfl, hw⟩ := fws_ok_decomp h
  refine ⟨w, rfl, ?_, ?_⟩
  · rw [List.countP_eq_zero]
    intro c hc
    have := hw c hc
    simp only [isSpaceTab, Bool.or_eq_true, decide_eq_true_eq] at this
    rcases this with rfl | rfl <;> simp
  · rw [List.countP_eq_zero]
    intro c hc
    have := hw c hc
    simp only [isSpaceTab, Bool.or_eq_true, decide_eq_true_eq] at this
    rcases this with rfl | rfl <;> decide

theorem ftag_dash {r1 r2 t : List Char} (h : ftag "-" r1 = .ok r2 t) :
    r1 = '-' :: r2 := by
  obtain ⟨hi, _⟩ := ftag_ok_decomp h
  simpa using hi

theorem countP_dot_replicate (n : Nat) :
    (List.replicate n '.').countP (fun c => c = '.') = n := by
  simp [List.countP_eq_length_filter, List.filter_replicate]

theorem connector_dotted_ok {i r : List Char} {conn : Connector}
    (h : connector_dotted i = .ok r conn) :
    conn.line_style = .Dotted ∧ ∃ pre, i = pre ++ r ∧
      conn.rank = pre.countP (fun c => c = '.') := by
  unfold connector_dotted at h
  obtain ⟨r1, a_s, h1, h⟩ := fbind_ok h
  obtain ⟨r2, t2, h2, h⟩ := fbind_ok h
  obtain ⟨r3, n, h3, h⟩ := fbind_ok h
  obtain ⟨r4, t4, h4, h⟩ := fbind_ok h
  obtain ⟨r5, a_e, h5, h⟩ := fbind_ok h
  obtain ⟨r6, t6, h6, h⟩ := fbind_ok h
  split at h
  · cases h
    obtain ⟨w1, rfl, hw1d, _, _⟩ := fopt_arrow_decomp h1
    have hr1 := ftag_dash h2
    obtain ⟨hr2, hn⟩ := many1_count_dot_ok h3
    have hr3 := ftag_dash h4
    obtain ⟨w5, hr4, hw5d, _, _⟩ := fopt_arrow_decomp h5
    obtain ⟨w6, hr5, hw6d, _⟩ := fws_counts h6
    refine ⟨rfl, w1 ++ '-' :: (List.replicate n '.' ++ '-' :: (w5 ++ w6)), ?_, ?_⟩
    · rw [hr1, hr2, hr3, hr4, hr5]
      simp [List.cons_append, List.append_assoc]
    · simp only [List.countP_append, List.countP_cons, hw1d, hw5d, hw6d,
        countP_dot_replicate]
      simp
  · cases h

end Flow

namespace Flow

open Mermaid

theorem chSty_ne_dotted (c : Char) : chSty c ≠ .Dotted := by
  unfold chSty
  split <;> simp

theorem connector_solid_ok {i r : List Char} {conn : Connector}
    (h : connector_solid i = .ok r conn) :
    conn.line_style ≠ .Dotted ∧ ∃ pre, i = pre ++ r ∧
      pre.countP isLineChar = conn.rank +
        (if conn.arrow_start.isNone then 1 else 0) +
        (if conn.arrow_end.isNone then 1 else 0) ∧
      (∀ c ∈ pre, isLineChar c = true → conn.line_style = chSty c) := by
  unfold connector_solid at h
  obtain ⟨r1, a_s, h1, h⟩ := fbind_ok h
  obtain ⟨r2, ty0, h2, h⟩ := fbind_ok h
  obtain ⟨r3, ty1, h3, h⟩ := fbind_ok h
  obtain ⟨r4, tyrank, h4, h⟩ := fbind_ok h
  obtain ⟨ty2, rk⟩ := tyrank
  obtain ⟨r5, a_e, h5, h⟩ := fbind_ok h
  obtain ⟨c1, hr2, hc1lc, hty1, hty0c1⟩ := line_set_ok h3
  obtain ⟨run, hr3, hrank, hmem, hsome, _⟩ := solid_count_ok r3 h4
  cases hget : lineTyGet ty2 with
  | ok style =>
    rw [hget] at h
    dsimp only at h
    cases h
    have hstyle : ty2 = some style := by
      unfold lineTyGet at hget
      cases htr : ty2 with
      | some s => rw [htr] at hget; cases hget; rfl
      | none => rw [htr] at hget; cases hget
    have hsty_c1 : style = chSty c1 := by
      have h' := hsome (chSty c1) hty1
      rw [h'] at hstyle
      cases hstyle
      rfl
    have hrun_sty : ∀ c ∈ run, style = chSty c := by
      intro c hc
      have h' := (hmem c hc).2
      rw [hstyle] at h'
      cases h'
      rfl
    obtain ⟨w1, rfl, _, hw1l, hw1none⟩ := fopt_arrow_decomp h1
    obtain ⟨w5, hr4e, _, hw5l, hw5none⟩ := fopt_arrow_decomp h5
    have hextra : ∃ ex, r1 = ex ++ r2 ∧
        (∀ c ∈ ex, isLineChar c = true ∧ style = chSty c) ∧
        ex.length = (if a_s.isNone then 1 else 0) := by
      cases has : a_s.isNone with
      | true =>
        rw [has] at h2
        have h2' : line_set none r1 = .ok r2 ty0 := by simpa using h2
        obtain ⟨e, he, helc, hty0, _⟩ := line_set_ok h2'
        refine ⟨[e], he, ?_, by simp⟩
        intro c hc
        rcases List.mem_singleton.mp hc with rfl
        have : chSty c = chSty c1 := hty0c1 (chSty c) hty0
        exact ⟨helc, by rw [hsty_c1, this]⟩
      | false =>
        rw [has] at h2
        have h2' : FRes.ok r1 (none : Option LineStyle) = .ok r2 ty0 := by
          simpa using h2
        cases h2'
        exact ⟨[], rfl, by simp, by simp [has]⟩
    obtain ⟨ex, hr1, hex, hexlen⟩ := hextra
    refine ⟨by rw [hsty_c1]; exact chSty_ne_dotted c1,
      w1 ++ ex ++ c1 :: (run ++ w5), ?_, ?_, ?_⟩
    · rw [hr1, hr2, hr3, hr4e]
      simp [List.cons_append, List.append_assoc]
    · have hexcount : ex.countP isLineChar = ex.length :=
        List.countP_eq_length.mpr (fun c hc => (hex c hc).1)
      have hruncount : run.countP isLineChar = run.length :=
        List.countP_eq_length.mpr (fun c hc => (hmem c hc).1)
      simp only [List.countP_append, List.countP_cons, hw1l, hw5l,
        hexcount, hruncount, hc1lc, if_true]
      rw [hexlen, hrank]
      split_ifs <;> simp_all <;> omega
    · intro c hc hlc
      rw [List.mem_append] at hc
      rcases hc with hc | hc
      · rw [List.mem_append] at hc
        rcases hc with hc1m | hexm
        · exact absurd hlc (by
            have := List.countP_eq_zero.mp hw1l c hc1m
            simpa using this)
        · exact (hex c hexm).2
      rw [List.mem_cons] at hc
      rcases hc with rfl | hc
      · exact hsty_c1
      rw [List.mem_append] at hc
      rcases hc with hrunm | hw5m
      · exact hrun_sty c hrunm
      · exact absurd hlc (by
          have := List.countP_eq_zero.mp hw5l c hw5m
          simpa using this)
  | error m => rw [hget] at h; cases h

end Flow

namespace Flow

open Mermaid

/-- Combined characterization of a successful connector parse: the consumed
prefix determines the rank (dot count for dotted; line-character count
adjusted by the two missing-arrow rules for solid) and all consumed line
characters agree with the line style. -/
theorem connector_ok_decomp {i r : List Char} {conn : Connector}
    (h : connector i = .ok r conn) :
    ∃ pre, i = pre ++ r ∧
      (conn.line_style = .Dotted → conn.rank = pre.countP (fun c => c = '.')) ∧
      (conn.line_style ≠ .Dotted →
        pre.countP isLineChar = conn.rank +
          (if conn.arrow_start.isNone then 1 else 0) +
          (if conn.arrow_end.isNone then 1 else 0) ∧
        ∀ c ∈ pre, isLineChar c = true → conn.line_style = chSty c) := by
  unfold connector at h
  rcases orElse_ok h with h | h
  · obtain ⟨hd, pre, hi, hcount⟩ := connector_dotted_ok h
    exact ⟨pre, hi, fun _ => hcount, fun hne => absurd hd hne⟩
  · obtain ⟨hnd, pre, hi, hcount, hhom⟩ := connector_solid_ok h
    exact ⟨pre, hi, fun hd => absurd hd hnd, fun _ => ⟨hcount, hhom⟩⟩

/-- Claim C2: for every successfully parsed connector, a dotted connector's
rank is exactly the number of dot characters consumed, regardless of
arrows; a solid connector's consumed line characters number rank plus one
for each absent arrow glyph (the uncounted extra character when no leading
arrow, the subtracted trailing segment when no trailing arrow) — so
`A --> B` has rank 1, `A ---> B` rank 2, `A --- B` rank 1. -/
theorem connector_rank_rule :
    (∀ (i r : List Char) (conn : Connector), connector i = .ok r conn →
      ∃ pre, i = pre ++ r ∧
        (conn.line_style = .Dotted →
          conn.rank = pre.countP (fun c => c = '.')) ∧
        (conn.line_style ≠ .Dotted →
          pre.countP isLineChar = conn.rank +
            (if conn.arrow_start.isNone then 1 else 0) +
            (if conn.arrow_end.isNone then 1 else 0))) ∧
    (parse_flowchart "flowchart TB\nA --> B".data =
      .ok "\nA --> B".data
        ⟨.TopBottom, [("A", "B", ⟨.Normal, none, some .Arrow, "", 1⟩)],
         [("A", ⟨"A", "", .Square⟩), ("B", ⟨"B", "", .Square⟩)]⟩) ∧
    (parse_flowchart "flowchart TB\nA ---> B".data =
      .ok "\nA ---> B".data
        ⟨.TopBottom, [("A", "B", ⟨.Normal, none, some .Arrow, "", 2⟩)],
         [("A", ⟨"A", "", .Square⟩), ("B", ⟨"B", "", .Square⟩)]⟩) ∧
    (parse_flowchart "flowchart TB\nA --- B".data =
      .ok "\nA --- B".data
        ⟨.TopBottom, [("A", "B", ⟨.Normal, none, none, "", 1⟩)],
         [("A", ⟨"A", "", .Square⟩), ("B", ⟨"B", "", .Square⟩)]⟩) := by
  refine ⟨?_, rfl, rfl, rfl⟩
  intro i r conn h
  obtain ⟨pre, hi, hdot, hsolid⟩ := connector_ok_decomp h
  exact ⟨pre, hi, hdot, fun hne => (hsolid hne).1⟩

/-- Witness for C2's rank rule at the dotted connector `-.->` and the solid
connector `-->`. -/
theorem connector_rank_witness :
    (connector "-.->".data = .ok [] ⟨.Dotted, none, some .Arrow, "", 1⟩ ∧
      ∃ pre, "-.->".data = pre ++ [] ∧
        (Connector.line_style ⟨.Dotted, none, some .Arrow, "", 1⟩ = .Dotted →
          Connector.rank ⟨.Dotted, none, some .Arrow, "", 1⟩ =
            pre.countP (fun c => c = '.')) ∧
        (Connector.line_style ⟨.Dotted, none, some .Arrow, "", 1⟩ ≠ .Dotted →
          pre.countP isLineChar = 1 + 1 + 0)) ∧
    (connector "-->".data = .ok [] ⟨.Normal, none, some .Arrow, "", 1⟩) := by
  refine ⟨⟨rfl, ?_⟩, rfl⟩
  obtain ⟨pre, hi, hdot, hsolid⟩ :=
    connector_rank_rule.1 "-.->".data [] ⟨.Dotted, none, some .Arrow, "", 1⟩ rfl
  exact ⟨pre, hi, hdot, fun hne => absurd rfl hne⟩

/-- Claim C6: a connector whose line-character run mixes `-` and `=` (e.g.
`-=->`) is rejected with the inconsistent-line-style error — no connector
value is produced and no flowchart model results — equivalently, every
successfully parsed solid connector consumed only line characters of its
single style. -/
theorem inconsistent_line_style_rejected :
    (connector "-=->".data = .fatal "mixed - and = in the same connection") ∧
    (parse_flowchart "flowchart TB\nA -=-> B".data =
      .fatal "mixed - and = in the same connection") ∧
    (∀ (i r : List Char) (conn : Connector), connector i = .ok r conn →
      conn.line_style ≠ .Dotted → ∃ pre, i = pre ++ r ∧
        ∀ c ∈ pre, isLineChar c = true → conn.line_style = chSty c) := by
  refine ⟨rfl, rfl, ?_⟩
  intro i r conn h hne
  obtain ⟨pre, hi, _, hsolid⟩ := connector_ok_decomp h
  exact ⟨pre, hi, (hsolid hne).2⟩

/-- Witness for C6's homogeneity statement at the connector `==>`. -/
theorem inconsistent_line_style_witness :
    (connector "==>".data = .ok [] ⟨.Thick, none, some .Arrow, "", 1⟩ ∧
      Connector.line_style ⟨.Thick, none, some .Arrow, "", 1⟩ ≠ .Dotted) ∧
    ∃ pre, "==>".data = pre ++ [] ∧
      ∀ c ∈ pre, isLineChar c = true →
        Connector.line_style ⟨.Thick, none, some .Arrow, "", 1⟩ = chSty c :=
  ⟨⟨rfl, by decide⟩,
   inconsistent_line_style_rejected.2.2 "==>".data []
     ⟨.Thick, none, some .Arrow, "", 1⟩ rfl (by decide)⟩

end Flow
